import Mathlib

/-!
Shallow embedding of the schema composition engine of
`packages/gatsby/src/schema/schema.js`, together with proofs about its
merge semantics, name validation, convenience-field generation,
resolver overrides, third-party schema import and whole-registry
validation.

Conventions of the embedding:
* JS objects holding type/field metadata become Lean structures; the
  recognized extension keys (`createdFrom`, `plugin`, `infer`,
  `addDefaultResolvers`, `mimeTypes`, `childOf`, `nodeInterface`,
  `needsResolve`, `originalFieldConfig`) become typed fields.
* Resolver functions are opaque: they are represented by an inductive
  tracking only how the code constructs and wraps them.
* `report.panic` and thrown invariant errors become an `Except` error
  channel; `report.warn` / `report.error` become an accumulated list of
  report strings.
* JS string manipulation (`replace`, char stripping) is modelled
  character-exactly on `List Char`.
-/

namespace GatsbySchema

/-! ## String helpers -/

/-- List-level model of JS `String.prototype.replace` with a *string*
pattern: only the first occurrence of `pat` is replaced. -/
def replaceFirstList (pat repl : List Char) : List Char → List Char
  | [] => if pat.isEmpty then repl else []
  | c :: cs =>
    if pat.isPrefixOf (c :: cs) then repl ++ (c :: cs).drop pat.length
    else c :: replaceFirstList pat repl cs

/-- JS `s.replace(pat, repl)` for a string pattern. -/
def replaceFirst (pat repl s : String) : String :=
  (replaceFirstList pat.toList repl.toList s.toList).asString

/-- Model of `fieldType.replace(/[[\]!]/g, "")` in
`processThirdPartyTypeFields`: drop every list/non-null wrapper char. -/
def stripWrapping (s : String) : String :=
  (s.toList.filter (fun c => !(c == '[' || c == ']' || c == '!'))).asString

/-- Model of `s.replace(/!/g, "")` in `addCustomResolveFunctions`. -/
def stripNonNull (s : String) : String :=
  (s.toList.filter (fun c => !(c == '!'))).asString

/-- JS `String.prototype.startsWith`, character-level. -/
def strStartsWith (s pre : String) : Bool := pre.toList.isPrefixOf s.toList

/-- JS `String.prototype.endsWith`, character-level. -/
def strEndsWith (s suf : String) : Bool := suf.toList.isSuffixOf s.toList

def isUpperChar (c : Char) : Bool := 'A' ≤ c && c ≤ 'Z'
def isLowerChar (c : Char) : Bool := 'a' ≤ c && c ≤ 'z'
def isDigitChar (c : Char) : Bool := '0' ≤ c && c ≤ '9'

/-- Word splitter of lodash `_.words` restricted to ASCII input: words are
digit runs, lowercase runs (with an optional leading capital), and
uppercase runs (an uppercase run followed by a capitalized word keeps all
but its last letter, as in `NPMPackage ↦ NPM, Package`). -/
def wordsAux : Nat → List Char → List (List Char)
  | 0, _ => []
  | _, [] => []
  | fuel + 1, c :: cs =>
    if isDigitChar c then
      ((c :: cs).takeWhile isDigitChar) :: wordsAux fuel ((c :: cs).dropWhile isDigitChar)
    else if isLowerChar c then
      ((c :: cs).takeWhile isLowerChar) :: wordsAux fuel ((c :: cs).dropWhile isLowerChar)
    else if isUpperChar c then
      let uppers := (c :: cs).takeWhile isUpperChar
      let rest := (c :: cs).dropWhile isUpperChar
      match rest with
      | r :: _ =>
        if isLowerChar r then
          if uppers.length == 1 then
            (uppers ++ rest.takeWhile isLowerChar) :: wordsAux fuel (rest.dropWhile isLowerChar)
          else
            uppers.dropLast ::
              ((uppers.getLast?.getD c) :: rest.takeWhile isLowerChar) ::
                wordsAux fuel (rest.dropWhile isLowerChar)
        else uppers :: wordsAux fuel rest
      | [] => uppers :: wordsAux fuel rest
    else wordsAux fuel cs

def toLowerChar (c : Char) : Char := if isUpperChar c then Char.ofNat (c.toNat + 32) else c
def toUpperChar (c : Char) : Char := if isLowerChar c then Char.ofNat (c.toNat - 32) else c

/-- Model of lodash `_.camelCase` (ASCII): lowercase every word, then
capitalize every word but the first and concatenate. -/
def camelCase (s : String) : String :=
  let ws := (wordsAux s.length s.toList).map (List.map toLowerChar)
  match ws with
  | [] => ""
  | w :: rest =>
    (w ++ (rest.map (fun u => match u with | [] => [] | c :: cs => toUpperChar c :: cs)).flatten).asString

/-- `fieldNames.query` of schema.js. -/
def queryFieldName (typeName : String) : String := camelCase typeName

/-- `fieldNames.queryAll` of schema.js. -/
def queryAllFieldName (typeName : String) : String := camelCase ("all " ++ typeName)

/-- `fieldNames.convenienceChild` of schema.js. -/
def convenienceChildFieldName (typeName : String) : String := camelCase ("child " ++ typeName)

/-- `fieldNames.convenienceChildren` of schema.js. -/
def convenienceChildrenFieldName (typeName : String) : String := camelCase ("children " ++ typeName)

/-! ## Data model -/

/-- Opaque model of resolver functions: we track only how schema.js
creates and wraps them. `wrapCreateResolvers fn prior` is the closure
built in `addCustomResolveFunctions` that invokes the user resolver `fn`
with `originalResolver` set to `prior`. -/
inductive Resolver where
  | fn (id : Nat)
  | defaultFieldResolver
  | wrapCreateResolvers (id : Nat) (prior : Resolver)
  | childResolver (typeName : String)
  | childrenResolver (typeName : String)
deriving DecidableEq, Repr

/-- A field config: declared type (as a GraphQL type string, possibly
with `[]`/`!` wrapping), arguments, optional resolver. -/
structure FieldConfig where
  type : String
  args : List (String × String) := []
  resolve : Option Resolver := none
deriving DecidableEq, Repr

/-- A field as stored on a type composer: the config plus the per-field
extension map (typed out for the recognized keys; `directives` are the
SDL directives attached to the field, `exts` the generic extension
entries copied from them by `addExtensions`). -/
structure FieldEntry where
  config : FieldConfig
  createdFrom : Option String := none
  plugin : Option String := none
  needsResolve : Bool := false
  originalFieldConfig : Option FieldConfig := none
  directives : List (String × List (String × String)) := []
  exts : List (String × List (String × String)) := []
deriving DecidableEq, Repr

def mkFieldEntry (c : FieldConfig) : FieldEntry := { config := c }

structure MimeTypesArgs where
  types : List String := []
deriving DecidableEq, Repr

structure ChildOfArgs where
  types : List String := []
  mimeTypes : List String := []
  many : Bool := false
deriving DecidableEq, Repr

/-- SDL directives recognized by `addExtensions` (plus `other` for any
unrecognized name, which the switch ignores). -/
inductive Directive where
  | infer (noDefaultResolvers : Option Bool)
  | dontInfer (noDefaultResolvers : Option Bool)
  | mimeTypes (args : MimeTypesArgs)
  | childOf (args : ChildOfArgs)
  | nodeInterface
  | other (name : String)
deriving DecidableEq, Repr

inductive TypeKind where
  | object
  | interface
  | union
  | inputObject
  | enum
  | scalar
deriving DecidableEq, Repr

/-- A type-definition record (graphql-compose type composer): name, kind,
fields, implemented interfaces (by name), attached SDL directives, and
the recognized type-level extensions as typed fields. -/
structure TypeComposer where
  name : String
  kind : TypeKind
  fields : List (String × FieldEntry) := []
  interfaces : List String := []
  directives : List Directive := []
  resolveTypeSet : Bool := false
  createdFrom : Option String := none
  pluginExt : Option String := none
  infer : Option Bool := none
  addDefaultResolvers : Option Bool := none
  mimeTypesExt : Option MimeTypesArgs := none
  childOfExt : Option ChildOfArgs := none
  nodeInterface : Option Bool := none
deriving DecidableEq, Repr

/-! ### Field map operations (graphql-compose composer methods) -/

/-- First-match lookup in a JS-object-like association list. -/
def lookupKV {β : Type} (l : List (String × β)) (x : String) : Option β :=
  (l.find? (fun p => p.1 = x)).map Prod.snd

def getFieldEntry (tc : TypeComposer) (f : String) : Option FieldEntry :=
  lookupKV tc.fields f

def hasField (tc : TypeComposer) (f : String) : Bool := (getFieldEntry tc f).isSome

def modifyField (tc : TypeComposer) (f : String) (g : FieldEntry → FieldEntry) : TypeComposer :=
  { tc with fields := tc.fields.map (fun p => if p.1 = f then (p.1, g p.2) else p) }

def removeField (tc : TypeComposer) (f : String) : TypeComposer :=
  { tc with fields := tc.fields.filter (fun p => !(p.1 = f : Bool)) }

def appendField (tc : TypeComposer) (f : String) (e : FieldEntry) : TypeComposer :=
  { tc with fields := tc.fields ++ [(f, e)] }

/-- graphql-compose `setField`: replace in place, or append. -/
def setFieldEntry (tc : TypeComposer) (f : String) (e : FieldEntry) : TypeComposer :=
  if hasField tc f then modifyField tc f (fun _ => e) else appendField tc f e

/-- A partial field config, as passed to `extendField`: `none` components
model JS object keys that are absent from the partial config. -/
structure FieldConfigPatch where
  type : Option String := none
  args : Option (List (String × String)) := none
  resolve : Option (Option Resolver) := none
deriving DecidableEq, Repr

def extendFieldConfig (c : FieldConfig) (p : FieldConfigPatch) : FieldConfig :=
  { type := p.type.getD c.type
    args := p.args.getD c.args
    resolve := p.resolve.getD c.resolve }

/-- graphql-compose `extendField`: shallow merge of the partial config
over the previous one (extensions of the field are kept). -/
def extendField (tc : TypeComposer) (f : String) (p : FieldConfigPatch) : TypeComposer :=
  modifyField tc f (fun e => { e with config := extendFieldConfig e.config p })

/-- A full field config viewed as a patch providing every part, which is
how `mergeFields` passes the incoming field configs to `extendField`. -/
def patchOfConfig (c : FieldConfig) : FieldConfigPatch :=
  { type := some c.type, args := some c.args, resolve := some c.resolve }

/-! ### Registry operations (the schema composer) -/

def getType (reg : List TypeComposer) (n : String) : Option TypeComposer :=
  reg.find? (fun t => t.name = n)

def hasType (reg : List TypeComposer) (n : String) : Bool := (getType reg n).isSome

def setType (reg : List TypeComposer) (t : TypeComposer) : List TypeComposer :=
  if hasType reg t.name then reg.map (fun u => if u.name = t.name then t else u)
  else reg ++ [t]

/-- The schema composer: the registry of type composers plus the
"schema must have type" retention set. -/
structure SchemaComposerState where
  types : List TypeComposer := []
  mustHave : List String := []
deriving DecidableEq, Repr

/-! ## Name validation (`checkIsAllowedTypeName`) -/

def builtInScalarNames : List String :=
  ["Boolean", "Date", "Float", "ID", "Int", "JSON", "String"]

def isValidGraphQLName (s : String) : Bool :=
  match s.toList with
  | [] => false
  | c :: cs =>
    (isUpperChar c || isLowerChar c || c == '_') &&
      cs.all (fun d => isUpperChar d || isLowerChar d || isDigitChar d || d == '_')

def reservedNodeMsg : String := "The GraphQL type `Node` is reserved for internal use."

def reservedSuffixMsg (name : String) : String :=
  "GraphQL type names ending with \"FilterInput\" or \"SortInput\" are " ++
    "reserved for internal use. Please rename `" ++ name ++ "`."

def reservedScalarMsg (name : String) : String :=
  "The GraphQL type `" ++ name ++
    ("` is reserved for internal use by " ++ "built-in scalar types.")

def introspectionNameMsg (name : String) : String :=
  "Name \"" ++ name ++
    "\" must not begin with \"__\", which is reserved by GraphQL introspection."

def invalidNameMsg (name : String) : String :=
  "Names must match /^[_a-zA-Z][_a-zA-Z0-9]*$/ but \"" ++ name ++ "\" does not."

/-- Model of graphql-js `assertValidName`: rejects names reserved by
introspection (leading `__`) and names not matching
`/^[_a-zA-Z][_a-zA-Z0-9]*$/`; throws an error naming the type. -/
def assertValidName (name : String) : Except String Unit :=
  if strStartsWith name "__" then .error (introspectionNameMsg name)
  else if !isValidGraphQLName name then .error (invalidNameMsg name)
  else .ok ()

/-- `checkIsAllowedTypeName` of schema.js: the four fatal name checks, in
source order; the first failing `invariant` throws (`Except.error`). -/
def checkIsAllowedTypeName (name : String) : Except String Unit :=
  if name = "Node" then .error reservedNodeMsg
  else if strEndsWith name "FilterInput" || strEndsWith name "SortInput" then
    .error (reservedSuffixMsg name)
  else if builtInScalarNames.contains name then .error (reservedScalarMsg name)
  else assertValidName name

/-! ## Extension processing (`addExtensions`) -/

def upsertExt {α : Type} (exts : List (String × α)) (k : String) (v : α) : List (String × α) :=
  if (exts.find? (fun p => p.1 = k)).isSome then
    exts.map (fun p => if p.1 = k then (k, v) else p)
  else exts ++ [(k, v)]

/-- The `infer` / `dontInfer` case of the directive switch: sets the
`infer` extension, and `addDefaultResolvers` when `noDefaultResolvers`
is non-null. -/
def applyInferDirective (tc : TypeComposer) (isInfer : Bool) (ndr : Option Bool) : TypeComposer :=
  let tc := { tc with infer := some isInfer }
  match ndr with
  | some b => { tc with addDefaultResolvers := some (!b) }
  | none => tc

/-- The panic message of the `nodeInterface` directive check
(schema.js 453-457). -/
def nodeInterfacePanicMsg (typeName : String) : String :=
  "Interfaces with the `nodeInterface` extension must have a field " ++
    "`id` of type `ID!`. Check the type definition of `" ++ typeName ++ "`."

/-- The failing condition of the `nodeInterface` directive check
(schema.js 449-452): no `id` field, or its printed type is not `ID!`. -/
def nodeInterfaceIdCheckFails (tc : TypeComposer) : Bool :=
  !hasField tc "id" ||
    !(((getFieldEntry tc "id").map (fun e => e.config.type)) == some "ID!")

/-- One SDL directive processed by the switch in `addExtensions`
(schema.js 428-464). The `nodeInterface` case panics unless the composer
is an interface with a field `id` of type `ID!`. -/
def processDirective (tc : TypeComposer) : Directive → Except String TypeComposer
  | .infer ndr => .ok (applyInferDirective tc true ndr)
  | .dontInfer ndr => .ok (applyInferDirective tc false ndr)
  | .mimeTypes a => .ok { tc with mimeTypesExt := some a }
  | .childOf a => .ok { tc with childOfExt := some a }
  | .nodeInterface =>
    if tc.kind = .interface then
      if nodeInterfaceIdCheckFails tc then .error (nodeInterfacePanicMsg tc.name)
      else .ok { tc with nodeInterface := some true }
    else .ok tc
  | .other _ => .ok tc

/-- Stamping of `createdFrom` / `plugin` on one field, plus (for SDL) the
copy of the field directives into the field extension map. -/
def stampFieldEntry (createdFrom : String) (plugin : Option String) (e : FieldEntry) : FieldEntry :=
  let e := { e with createdFrom := some createdFrom, plugin := plugin }
  if createdFrom = "sdl" then
    { e with exts := e.directives.foldl (fun exts d => upsertExt exts d.1 d.2) e.exts }
  else e

/-- The per-field stamping loop of `addExtensions` (467-547), which runs
on object, interface and input composers. -/
def stampAllFields (createdFrom : String) (plugin : Option String) (tc : TypeComposer) :
    TypeComposer :=
  if tc.kind = .object ∨ tc.kind = .interface ∨ tc.kind = .inputObject then
    { tc with fields := tc.fields.map (fun p => (p.1, stampFieldEntry createdFrom plugin p.2)) }
  else tc

/-- The deprecation warning emitted when `addDefaultResolvers` is set
(549-555). -/
def deprecationReports (tc : TypeComposer) : List String :=
  if tc.addDefaultResolvers.isSome then
    ["Deprecation warning - \"noDefaultResolvers\" is deprecated. In Gatsby 3, " ++
      "defined fields will not get resolvers, unless explicitly added with a " ++
      "directive/extension."]
  else []

/-- `addExtensions` of schema.js (417-558). The field-extension argument
validation block (487-545) is omitted from the model: it only emits
non-fatal per-field reports and backfills argument defaults for
user-declared (non-internal) field extensions, and none of that feeds
the logic modelled here. -/
def addExtensions (tc : TypeComposer) (plugin : Option String) (createdFrom : String) :
    Except String (TypeComposer × List String) :=
  let tc := { tc with createdFrom := some createdFrom, pluginExt := plugin }
  let processed :=
    if createdFrom = "sdl" then tc.directives.foldlM processDirective tc
    else pure tc
  processed.map (fun t =>
    (stampAllFields createdFrom plugin t, deprecationReports (stampAllFields createdFrom plugin t)))

/-! ## Merge resolver (`mergeTypes`, `mergeFields`) -/

/-- `mergeFields` of schema.js (1248-1255): per incoming field, extend an
existing field of the same name or set a new one. -/
def mergeFields (tc : TypeComposer) (fields : List (String × FieldConfig)) : TypeComposer :=
  fields.foldl (fun tc p =>
    if hasField tc p.1 then extendField tc p.1 (patchOfConfig p.2)
    else setFieldEntry tc p.1 (mkFieldEntry p.2)) tc

/-- graphql-compose `addInterface`: append the interface unless already
implemented. -/
def addInterface (tc : TypeComposer) (i : String) : TypeComposer :=
  if i ∈ tc.interfaces then tc else { tc with interfaces := tc.interfaces ++ [i] }

/-- graphql-compose `extendExtensions`: merge the incoming extension map
into the existing one, the incoming entry winning on key collision. -/
def extendExtensions (tc inc : TypeComposer) : TypeComposer :=
  { tc with
    createdFrom := inc.createdFrom.orElse (fun _ => tc.createdFrom)
    pluginExt := inc.pluginExt.orElse (fun _ => tc.pluginExt)
    infer := inc.infer.orElse (fun _ => tc.infer)
    addDefaultResolvers := inc.addDefaultResolvers.orElse (fun _ => tc.addDefaultResolvers)
    mimeTypesExt := inc.mimeTypesExt.orElse (fun _ => tc.mimeTypesExt)
    childOfExt := inc.childOfExt.orElse (fun _ => tc.childOfExt)
    nodeInterface := inc.nodeInterface.orElse (fun _ => tc.nodeInterface) }

/-- The incoming value handed to `mergeTypes`: a graphql-compose composer
(SDL and type-builder paths; `isNamedTypeComposer` true) or a native
graphql-js type (whose field map arrives via `defineFieldMapToConfig`;
`isNamedTypeComposer` false). -/
structure IncomingType where
  tc : TypeComposer
  isComposer : Bool
deriving DecidableEq, Repr

/-- graphql-compose `getFields` / `defineFieldMapToConfig`: the stored
field configs by name. -/
def getFieldConfigs (tc : TypeComposer) : List (String × FieldConfig) :=
  tc.fields.map (fun p => (p.1, p.2.config))

/-- JS truthiness of the `plugin` extension value. -/
def truthyOwner : Option String → Bool
  | none => false
  | some s => !(s == "")

/-- The safe-merge condition of `mergeTypes` (344-347). -/
def isSafeMerge (plugin : Option String) (typeOwner : Option String) : Bool :=
  match plugin with
  | none => true
  | some p => p == "default-site-plugin" || typeOwner == some p

def unsafeHasOwnerWarning (pluginName tcName ownerName : String) : String :=
  "Plugin `" ++ pluginName ++ ("` has customized the GraphQL type `" ++ tcName ++
    ("`, which has already been defined by the plugin `" ++ ownerName ++
      "`. This could potentially cause conflicts."))

def unsafeBuiltInWarning (pluginName tcName : String) : String :=
  "Plugin `" ++ pluginName ++ ("` has customized the built-in Gatsby GraphQL type `" ++
    tcName ++ "`. This is allowed, but could potentially cause conflicts.")

/-- The warnings of the unsafe-merge branch of `mergeTypes` (349-364). -/
def mergeWarnings (plugin : Option String) (tc : TypeComposer) : List String :=
  if isSafeMerge plugin tc.pluginExt then []
  else
    match plugin with
    | some p =>
      if truthyOwner tc.pluginExt then [unsafeHasOwnerWarning p tc.name (tc.pluginExt.getD "")]
      else [unsafeBuiltInWarning p tc.name]
    | none => []

/-- The instanceof dispatch of `mergeTypes` (366-382): object and
interface incomings have their fields merged, object incomings also get
the interface union; other kinds fall through unchanged. -/
def mergeFieldsStep (tc : TypeComposer) (incoming : IncomingType) : TypeComposer :=
  if incoming.tc.kind = .object then
    incoming.tc.interfaces.foldl addInterface (mergeFields tc (getFieldConfigs incoming.tc))
  else if incoming.tc.kind = .interface then
    mergeFields tc (getFieldConfigs incoming.tc)
  else tc

/-- The field/interface/extension merging of `mergeTypes` (366-386):
the instanceof dispatch above, then `extendExtensions` for composer
incomings (`isNamedTypeComposer`, 384-386). -/
def mergeCore (tc : TypeComposer) (incoming : IncomingType) : TypeComposer :=
  if incoming.isComposer then extendExtensions (mergeFieldsStep tc incoming) incoming.tc
  else mergeFieldsStep tc incoming

/-- `mergeTypes` of schema.js (333-391): warn on unsafe merges, merge
fields (and interfaces for object types), merge extensions for composer
incomings, reapply `addExtensions`, return `true`. -/
def mergeTypes (tc : TypeComposer) (incoming : IncomingType) (plugin : Option String)
    (createdFrom : String) : Except String (TypeComposer × List String × Bool) := do
  let warnings := mergeWarnings plugin tc
  let (tc2, reports) ← addExtensions (mergeCore tc incoming) plugin createdFrom
  return (tc2, warnings ++ reports, true)

/-! ## Type intake (`addTypes`, `parseTypes`, `processAddedType`) -/

/-- `processAddedType` of schema.js (393-415): register the composer,
default its `resolveType` for interfaces/unions, retain it, run
`addExtensions`. -/
def processAddedType (st : SchemaComposerState) (t : TypeComposer) (plugin : Option String)
    (createdFrom : String) : Except String (SchemaComposerState × List String) := do
  let t :=
    if (t.kind = .interface ∨ t.kind = .union) ∧ !t.resolveTypeSet then
      { t with resolveTypeSet := true }
    else t
  let st := { st with types := setType st.types t, mustHave := st.mustHave ++ [t.name] }
  let (t2, reports) ← addExtensions t plugin createdFrom
  return ({ st with types := setType st.types t2 }, reports)

/-- The error channels of the intake path: `panic` models `report.panic`
(immediately fatal and not catchable), `invariantViolation` a thrown
`invariant` / `assertValidName` error (catchable), `parseFailure` a
GraphQL syntax error carrying source locations. -/
inductive SchemaError where
  | panic (msg : String)
  | invariantViolation (msg : String)
  | parseFailure (msg : String)
deriving DecidableEq, Repr

def SchemaError.msg : SchemaError → String
  | .panic m => m
  | .invariantViolation m => m
  | .parseFailure m => m

/-- Modelled from the spec: `reportParsingError` (types/type-defs.js, not
under src/) reports a GraphQL syntax parse failure so the build continues
with that source skipped, while any other error caught around
`parseTypes` is rethrown and aborts the build (spec section 7: parse
failures are non-fatal; reserved-name violations are fatal). -/
def reportParsingError : SchemaError → Option SchemaError
  | .parseFailure _ => none
  | e => some e

inductive GatsbyTypeKind where
  | object
  | inputObject
  | union
  | interface
  | enum
  | scalar
  | illegal
deriving DecidableEq, Repr

structure GatsbyTypeConfig where
  name : String
  fields : List (String × FieldConfig) := []
  interfaces : List String := []
deriving DecidableEq, Repr

/-- A type-builder descriptor (`isGatsbyType` source). -/
structure GatsbyType where
  kind : GatsbyTypeKind
  config : GatsbyTypeConfig
deriving DecidableEq, Repr

def GatsbyTypeKind.toTypeKind : GatsbyTypeKind → Option TypeKind
  | .object => some .object
  | .inputObject => some .inputObject
  | .union => some .union
  | .interface => some .interface
  | .enum => some .enum
  | .scalar => some .scalar
  | .illegal => none

/-- `createTypeComposerFromGatsbyType` of schema.js (578-639): build a
temp composer per kind; an unknown kind yields a warning and `null`. -/
def createTypeComposerFromGatsbyType (t : GatsbyType) : Option TypeComposer × List String :=
  match t.kind.toTypeKind with
  | some k =>
    (some { name := t.config.name, kind := k,
            fields := t.config.fields.map (fun p => (p.1, mkFieldEntry p.2)),
            interfaces := t.config.interfaces }, [])
  | none => (none, ["Illegal type definition: " ++ t.config.name])

/-- One `(typeOrTypeDef, plugin)` intake item. SDL sources arrive as a
parsed document: a list of definitions, each already converted by
`makeSchemaDef` into a composer (the textual parser is an external
collaborator). -/
inductive TypeSource where
  | sdl (doc : List TypeComposer)
  | builder (t : GatsbyType)
  | native (t : TypeComposer)
deriving DecidableEq, Repr

/-- One iteration of the `doc.definitions.forEach` loop of `parseTypes`
(1149-1182); a previously thrown error stops all further processing. -/
def parseTypesStep (plugin : Option String)
    (acc : SchemaComposerState × List TypeComposer × List String × Option SchemaError)
    (d : TypeComposer) :
    SchemaComposerState × List TypeComposer × List String × Option SchemaError :=
  match acc with
  | (st, ts, ws, some e) => (st, ts, ws, some e)
  | (st, ts, ws, none) =>
    match checkIsAllowedTypeName d.name with
    | .error m => (st, ts, ws, some (.invariantViolation m))
    | .ok _ =>
      match getType st.types d.name with
      | some existing =>
        match mergeTypes existing { tc := d, isComposer := true } plugin "sdl" with
        | .error m => (st, ts, ws, some (.panic m))
        | .ok (merged, mws, _) =>
          ({ st with types := setType st.types merged }, ts, ws ++ mws, none)
      | none => (st, ts ++ [d], ws, none)

/-- `parseTypes` of schema.js (1141-1184) over one parsed document: each
definition name is validated, definitions for already-registered names
are merged in place, the rest are collected for registration. As in JS,
registry mutations made before a thrown error persist; a stopping error
is returned alongside the state. -/
def parseTypes (st : SchemaComposerState) (doc : List TypeComposer) (plugin : Option String) :
    SchemaComposerState × List TypeComposer × List String × Option SchemaError :=
  doc.foldl (parseTypesStep plugin) (st, ([], [], none))

/-- The body of the `types.forEach` of `addTypes` (246-331) for one
source. The try/catch of the SDL branch catches only thrown errors (not
`report.panic`) and routes them through `reportParsingError`. -/
def addTypeSource (st : SchemaComposerState) (src : TypeSource) (plugin : Option String) :
    Except SchemaError (SchemaComposerState × List String) :=
  match src with
  | .sdl doc =>
    match parseTypes st doc plugin with
    | (st, parsedTypes, ws, err) =>
      match err with
      | some (.panic m) => .error (.panic m)
      | some e =>
        match reportParsingError e with
        | some e2 => .error e2
        | none => .ok (st, ws)
      | none =>
        parsedTypes.foldlM (fun acc t =>
          match processAddedType acc.1 t plugin "sdl" with
          | .error m => .error (.panic m)
          | .ok (st2, rs) => .ok (st2, acc.2 ++ rs)) (st, ws)
  | .builder t =>
    match createTypeComposerFromGatsbyType t with
    | (none, ws) => .ok (st, ws)
    | (some tp, ws) =>
      match checkIsAllowedTypeName tp.name with
      | .error m => .error (.invariantViolation m)
      | .ok _ =>
        match getType st.types tp.name with
        | some existing =>
          match mergeTypes existing { tc := tp, isComposer := true } plugin "typeBuilder" with
          | .error m => .error (.panic m)
          | .ok (merged, mws, _) =>
            .ok ({ st with types := setType st.types merged }, ws ++ mws)
        | none =>
          match processAddedType st tp plugin "typeBuilder" with
          | .error m => .error (.panic m)
          | .ok (st2, rs) => .ok (st2, ws ++ rs)
  | .native t =>
    match checkIsAllowedTypeName t.name with
    | .error m => .error (.invariantViolation m)
    | .ok _ =>
      match getType st.types t.name with
      | some existing =>
        match mergeTypes existing { tc := t, isComposer := false } plugin "graphql-js" with
        | .error m => .error (.panic m)
        | .ok (merged, mws, _) => .ok ({ st with types := setType st.types merged }, mws)
      | none =>
        match processAddedType st t plugin "graphql-js" with
        | .error m => .error (.panic m)
        | .ok (st2, rs) => .ok (st2, rs)

/-- `addTypes` of schema.js (246-331). -/
def addTypes (st : SchemaComposerState) (types : List (TypeSource × Option String)) :
    Except SchemaError (SchemaComposerState × List String) :=
  types.foldlM (fun acc p =>
    match addTypeSource acc.1 p.1 p.2 with
    | .error e => .error e
    | .ok (st2, ws2) => .ok (st2, acc.2 ++ ws2)) (st, [])

/-! ## Custom resolver applier (`addCustomResolveFunctions`) -/

/-- A field type as it may be passed to `createResolvers`: a printed type
string or a (possibly nested) array. -/
inductive TypeSpec where
  | named (s : String)
  | arr (elems : List TypeSpec)

/-- `stringifyArray` of schema.js (1186-1189) together with
`fieldConfig.type.toString()`: arrays print as `[a,b]` with elements
stringified recursively. -/
def stringifyTypeSpec : TypeSpec → String
  | .named s => s
  | .arr elems =>
    "[" ++ String.intercalate "," (elems.attach.map (fun x => stringifyTypeSpec x.1)) ++ "]"
decreasing_by
  have h := List.sizeOf_lt_of_mem x.2
  simp only [TypeSpec.arr.sizeOf_spec]
  omega

/-- A field override passed to `createResolvers`: any subset of type,
args and resolver. -/
structure OverrideConfig where
  type : Option TypeSpec := none
  args : Option (List (String × String)) := none
  resolve : Option Nat := none

def createResolversTypeWarning (typeName fieldName fieldTypeName originalTypeName : String) :
    String :=
  "`createResolvers` passed resolvers for field `" ++ typeName ++ "." ++ fieldName ++
    "` with type `" ++ fieldTypeName ++ "`. Such a field with type `" ++ originalTypeName ++
    "` already exists on the type. Use `createTypes` to override type fields."

def createResolversUnknownTypeWarning (typeName : String) : String :=
  "`createResolvers` passed resolvers for type `" ++ typeName ++ "` that " ++
    "does not exist in the schema. Use `createTypes` to add the type " ++
    "before adding resolvers."

/-- The acceptance condition of a `createResolvers` override on an
existing field (schema.js 773-778): no declared type, matching type
modulo non-null wrappers, or a third-party target type. -/
def overrideAcceptCond (tc : TypeComposer) (fieldConfig : OverrideConfig)
    (originalTypeName : String) : Bool :=
  (fieldConfig.type.map stringifyTypeSpec).isNone ||
    ((fieldConfig.type.map stringifyTypeSpec).map stripNonNull) ==
      some (stripNonNull originalTypeName) ||
    tc.createdFrom == some "thirdPartySchema"

/-- The accepted-override mutation (schema.js 779-806): tag
`needsResolve` when a resolver is given, extend the field with the new
config (the resolver wrapped with the prior one or the default field
resolver), and snapshot `originalFieldConfig` on third-party types. -/
def applyAcceptedOverride (tc : TypeComposer) (fieldName : String)
    (fieldConfig : OverrideConfig) (originalFieldConfig : FieldConfig) : TypeComposer :=
  let patch : FieldConfigPatch :=
    { type := fieldConfig.type.map stringifyTypeSpec
      args := fieldConfig.args
      resolve := fieldConfig.resolve.map (fun fnId =>
        some (.wrapCreateResolvers fnId
          (originalFieldConfig.resolve.getD .defaultFieldResolver))) }
  let tc :=
    match fieldConfig.resolve with
    | some _ => modifyField tc fieldName (fun e => { e with needsResolve := true })
    | none => tc
  let tc := extendField tc fieldName patch
  if tc.createdFrom == some "thirdPartySchema" then
    modifyField tc fieldName (fun e => { e with originalFieldConfig := some originalFieldConfig })
  else tc

/-- The per-field body of the `createResolvers` closure in
`addCustomResolveFunctions` (schema.js 760-822), applied to a type
composer that was found in the registry. -/
def applyCreateResolverToField (tc : TypeComposer) (typeName fieldName : String)
    (fieldConfig : OverrideConfig) : TypeComposer × List String :=
  match getFieldEntry tc fieldName with
  | some e =>
    if overrideAcceptCond tc fieldConfig e.config.type then
      (applyAcceptedOverride tc fieldName fieldConfig e.config, [])
    else
      match fieldConfig.type.map stringifyTypeSpec with
      | some ftn => (tc, [createResolversTypeWarning typeName fieldName ftn e.config.type])
      | none => (tc, [])
  | none =>
    let newConfig : FieldConfig :=
      { type := (fieldConfig.type.map stringifyTypeSpec).getD ""
        args := fieldConfig.args.getD []
        resolve := fieldConfig.resolve.map .fn }
    let tc := appendField tc fieldName (mkFieldEntry newConfig)
    (modifyField tc fieldName (fun e => { e with createdFrom := some "createResolvers" }), [])

/-- The field entry an accepted override produces from the prior entry
`e`: config parts replaced where given (the resolver wrapped around the
prior one or the default field resolver), `needsResolve` set when a
resolver is given, `originalFieldConfig` snapshotted on third-party
types. -/
def overriddenEntry (tc : TypeComposer) (fieldConfig : OverrideConfig) (e : FieldEntry) :
    FieldEntry :=
  { e with
    config := extendFieldConfig e.config
      { type := fieldConfig.type.map stringifyTypeSpec
        args := fieldConfig.args
        resolve := fieldConfig.resolve.map (fun fnId =>
          some (.wrapCreateResolvers fnId (e.config.resolve.getD .defaultFieldResolver))) }
    needsResolve := if fieldConfig.resolve.isSome then true else e.needsResolve
    originalFieldConfig :=
      if tc.createdFrom == some "thirdPartySchema" then some e.config
      else e.originalFieldConfig }

/-- The `createResolvers` closure of `addCustomResolveFunctions`
(schema.js 752-831) over a resolver map. `getOTC` throws when the name
resolves to a non-object composer. -/
def createResolvers (reg : List TypeComposer)
    (resolvers : List (String × List (String × OverrideConfig)))
    (ignoreNonexistentTypes : Bool) :
    Except String (List TypeComposer × List String) :=
  resolvers.foldlM (fun acc p =>
    let (typeName, fields) := p
    match getType acc.1 typeName with
    | some tc =>
      if tc.kind = .object then
        let (tc2, ws) := fields.foldl (fun q f =>
          let (tc2, ws2) := applyCreateResolverToField q.1 typeName f.1 f.2
          (tc2, q.2 ++ ws2)) (tc, [])
        .ok (setType acc.1 tc2, acc.2 ++ ws)
      else .error ("Cannot get TypeComposer with name " ++ typeName)
    | none =>
      if ignoreNonexistentTypes then .ok acc
      else .ok (acc.1, acc.2 ++ [createResolversUnknownTypeWarning typeName])) (reg, [])

/-! ## Third-party schema integration -/

/-- The loop body of `resetOverriddenThirdPartyTypeFields` (schema.js
713-730): drop a field tagged as added by `createResolvers`, restore a
field carrying `originalFieldConfig` to that recorded config (graphql-js
`removeField` then `addFields` appends the restored field). -/
def resetFieldStep (tc : TypeComposer) (f : String) : TypeComposer :=
  match getFieldEntry tc f with
  | none => tc
  | some e =>
    if e.createdFrom = some "createResolvers" then removeField tc f
    else
      match e.originalFieldConfig with
      | some config => appendField (removeField tc f) f (mkFieldEntry config)
      | none => tc

/-- `resetOverriddenThirdPartyTypeFields` of schema.js (702-731): remove
fields added by `createResolvers`, restore overridden fields to their
recorded `originalFieldConfig`. -/
def resetOverriddenThirdPartyTypeFields (tc : TypeComposer) : TypeComposer :=
  (tc.fields.map Prod.fst).foldl resetFieldStep tc

/-- The loop body of the rewrite in `processThirdPartyTypeFields`
(736-747): a field whose type, stripped of list/non-null wrappers, is
the foreign schema query type name is extended to the same type string
with that name replaced by `Query` (JS `replace` with a plain-string
pattern replaces the first occurrence). -/
def rewriteQueryRefStep (schemaQueryTypeName : String) (tc : TypeComposer) (f : String) :
    TypeComposer :=
  match getFieldEntry tc f with
  | none => tc
  | some e =>
    if stripWrapping e.config.type = schemaQueryTypeName then
      extendField tc f
        { type := some (replaceFirst schemaQueryTypeName "Query" e.config.type) }
    else tc

/-- `processThirdPartyTypeFields` of schema.js (733-748): reset prior
createResolvers mutations, then rewrite every field referring to the
foreign query type. -/
def processThirdPartyTypeFields (schemaQueryTypeName : String) (tc : TypeComposer) :
    TypeComposer :=
  let tc := resetOverriddenThirdPartyTypeFields tc
  (tc.fields.map Prod.fst).foldl (rewriteQueryRefStep schemaQueryTypeName) tc

/-- An externally supplied whole schema: its query root type and its type
map. -/
structure ThirdPartySchema where
  queryType : TypeComposer
  typeMap : List TypeComposer
deriving DecidableEq, Repr

def specifiedScalarNames : List String := ["String", "Int", "Float", "Boolean", "ID"]

def introspectionTypeNames : List String :=
  ["__Schema", "__Directive", "__DirectiveLocation", "__Type", "__Field",
   "__InputValue", "__EnumValue", "__TypeKind"]

/-- The import filter of `addThirdPartySchemas` (681-687): everything but
the schema query root, the specified scalars, the introspection types,
and types named `Date` or `JSON`. -/
def shouldImportThirdPartyType (schemaQueryTypeName : String) (t : TypeComposer) : Bool :=
  !(t.name == schemaQueryTypeName) &&
    !(specifiedScalarNames.contains t.name && t.kind == .scalar) &&
    !(introspectionTypeNames.contains t.name) &&
    !(t.name == "Date") && !(t.name == "JSON")

/-- `Query.addFields(...)` on the registry: add the given field entries
to the root query composer (created empty when absent, as
`schemaComposer.Query` always exists). -/
def addQueryFields (st : SchemaComposerState) (fields : List (String × FieldEntry)) :
    SchemaComposerState :=
  let q := (getType st.types "Query").getD { name := "Query", kind := .object }
  let q := fields.foldl (fun q p => setFieldEntry q p.1 p.2) q
  { st with types := setType st.types q }

/-- The composer an imported third-party type becomes (schema.js
688-696): object and interface types get their query references
processed, and every import is tagged `createdFrom := thirdPartySchema`. -/
def importedThirdPartyType (qn : String) (t : TypeComposer) : TypeComposer :=
  let tc := if t.kind = .object ∨ t.kind = .interface then
      processThirdPartyTypeFields qn t
    else t
  { tc with createdFrom := some "thirdPartySchema" }

/-- One iteration of the type-map loop of `addThirdPartySchemas`
(679-697). -/
def importThirdPartyTypeStep (qn : String) (st : SchemaComposerState) (t : TypeComposer) :
    SchemaComposerState :=
  if shouldImportThirdPartyType qn t then
    let tc := importedThirdPartyType qn t
    { st with types := setType st.types tc, mustHave := st.mustHave ++ [tc.name] }
  else st

/-- `addThirdPartySchemas` of schema.js (665-700): re-home the foreign
root query fields onto `Query`, then import every type passing the
filter, processing object/interface fields and tagging provenance
`thirdPartySchema`. -/
def addThirdPartySchemas (st : SchemaComposerState) (schemas : List ThirdPartySchema) :
    SchemaComposerState :=
  schemas.foldl (fun st schema =>
    let qn := schema.queryType.name
    let queryTC := processThirdPartyTypeFields qn schema.queryType
    let st := addQueryFields st queryTC.fields
    schema.typeMap.foldl (importThirdPartyTypeStep qn) st) st

/-- The import filter as the specification sentence states it: every
type other than the schema query root and the specified scalar and
introspection types is imported. Kept for comparison with the filter
the code implements (`shouldImportThirdPartyType`). -/
def specImportFilter (schemaQueryTypeName : String) (t : TypeComposer) : Bool :=
  !(t.name == schemaQueryTypeName) &&
    !(specifiedScalarNames.contains t.name && t.kind == .scalar) &&
    !(introspectionTypeNames.contains t.name)

/-- The root query composer after re-homing a schema query type's fields
onto it: the prior `Query` composer (or a fresh one), with every
processed foreign query field set on it, exactly as `addQueryFields`
builds it. -/
def rehomedQuery (st : SchemaComposerState) (schema : ThirdPartySchema) : TypeComposer :=
  (processThirdPartyTypeFields schema.queryType.name schema.queryType).fields.foldl
    (fun q p => setFieldEntry q p.1 p.2)
    ((getType st.types "Query").getD { name := "Query", kind := .object })

/-- The per-field effect of `resetOverriddenThirdPartyTypeFields` on the
entry found at a name: createResolvers-tagged entries disappear, entries
carrying `originalFieldConfig` are restored to a plain entry of that
config, others are kept. -/
def resetFieldLookupResult : Option FieldEntry → Option FieldEntry
  | none => none
  | some e =>
    if e.createdFrom = some "createResolvers" then none
    else
      match e.originalFieldConfig with
      | some config => some (mkFieldEntry config)
      | none => some e

/-! ## Whole-registry validation (`checkQueryableInterfaces`) -/

def backtickJoin : List String → String
  | [] => ""
  | [t] => "`" ++ t ++ "`"
  | t :: rest => "`" ++ t ++ "`" ++ ", " ++ backtickJoin rest

def queryableInterfacesPanicMsg (incorrectTypes : List String) : String :=
  "Interfaces with the `nodeInterface` extension must only be " ++
    "implemented by types which also implement the `Node` " ++
    "interface. Check the type definition of " ++ backtickJoin incorrectTypes ++ "."

/-- The queryable-interface names collected by the first scan of
`checkQueryableInterfaces` (1217-1225). -/
def queryableInterfaces (reg : List TypeComposer) : List String :=
  (reg.filter (fun t => t.kind == .interface && t.nodeInterface == some true)).map (fun t => t.name)

/-- The violating object types collected by the second scan (1226-1237):
object types implementing a queryable interface without implementing
`Node`. -/
def incorrectQueryableTypes (reg : List TypeComposer) : List String :=
  (reg.filter (fun t =>
    t.kind == .object &&
      t.interfaces.any (fun i => (queryableInterfaces reg).contains i) &&
      !(t.interfaces.contains "Node"))).map (fun t => t.name)

/-- `checkQueryableInterfaces` of schema.js (1216-1246). -/
def checkQueryableInterfaces (reg : List TypeComposer) : Except String Unit :=
  let incorrectTypes := incorrectQueryableTypes reg
  if incorrectTypes.isEmpty then .ok ()
  else .error (queryableInterfacesPanicMsg incorrectTypes)

/-! ## Implicit convenience children fields -/

/-- A content-store node: id, parent link, children links, and
`internal.type` (optional, matching the defensive guard in
`groupChildNodesByType`). -/
structure NodeRec where
  id : String
  parent : Option String := none
  children : List String := []
  internalType : Option String := none
deriving DecidableEq, Repr

/-- JS object key for a possibly-undefined grouping value. -/
def jsKeyOfOption : Option String → String
  | some s => s
  | none => "undefined"

/-- JS object key for a possibly-null parent id. -/
def jsKeyOfParent : Option String → String
  | some s => s
  | none => "null"

def getNode (store : List NodeRec) (id : String) : Option NodeRec :=
  store.find? (fun n => n.id = id)

def getNodesByType (store : List NodeRec) (t : String) : List NodeRec :=
  store.filter (fun n => n.internalType == some t)

/-- lodash `_.groupBy` with string keys: association list in
first-occurrence key order, each group in input order. -/
def groupByKey (key : NodeRec → String) (l : List NodeRec) : List (String × List NodeRec) :=
  l.foldl (fun acc n =>
    let k := key n
    if (acc.find? (fun p => p.1 = k)).isSome then
      acc.map (fun p => if p.1 = k then (p.1, p.2 ++ [n]) else p)
    else acc ++ [(k, [n])]) []

/-- `groupChildNodesByType` of schema.js (1095-1099). -/
def groupChildNodesByType (store : List NodeRec) (nodes : List NodeRec) :
    List (String × List NodeRec) :=
  groupByKey (fun n => jsKeyOfOption n.internalType)
    (nodes.flatMap (fun n => n.children.filterMap (getNode store)))

/-- The `maxChildCount` computation (1020-1023): group one type's child
nodes by parent id and take the largest group size. -/
def maxChildCount (typeChildren : List NodeRec) : Nat :=
  ((groupByKey (fun c => jsKeyOfParent c.parent) typeChildren).map (fun p => p.2.length)).foldl
    max 0

/-- `createChildrenField` of schema.js (1060-1073). -/
def createChildrenField (typeName : String) : String × FieldConfig :=
  (convenienceChildrenFieldName typeName,
    { type := "[" ++ typeName ++ "]", args := [], resolve := some (.childrenResolver typeName) })

/-- `createChildField` of schema.js (1075-1093). -/
def createChildField (typeName : String) : String × FieldConfig :=
  (convenienceChildFieldName typeName,
    { type := typeName, args := [], resolve := some (.childResolver typeName) })

def dontInferChildrenWarning (parentTypeName fieldName : String) : String :=
  "The type `" ++ parentTypeName ++ "` does not explicitly define " ++
    "the field `" ++ fieldName ++ "`. " ++
    "On types with the `@dontInfer` directive, or with the `infer` " ++
    "extension set to `false`, automatically adding fields for " ++
    "children types is deprecated. " ++
    "In Gatsby v3, only children fields explicitly set with the " ++
    "`childOf` extension will be added."

/-- The deprecation-warning block of
`addImplicitConvenienceChildrenFields` (1025-1050), run when inference
is disabled; `getAnyTC` throws when the child type is unregistered. -/
def implicitChildWarning (reg : List TypeComposer) (shouldInfer : Option Bool)
    (parentTypeName typeName : String) (mcc : Nat) : Except String (List String) :=
  if shouldInfer == some false then
    match getType reg typeName with
    | none => .error ("Type with name " ++ typeName ++ " does not exist")
    | some child =>
      let childOfExtension := child.childOfExt
      let many := decide (mcc > 1)
      if childOfExtension.isNone ||
          !((childOfExtension.map (fun a => a.types.contains parentTypeName)).getD false) ||
          ((!(childOfExtension.map (fun a => a.many)).getD false) == many) then
        let fieldName := if many then convenienceChildrenFieldName typeName
          else convenienceChildFieldName typeName
        .ok [dontInferChildrenWarning parentTypeName fieldName]
      else .ok []
  else .ok []

/-- The convenience field generated for one observed child type (the
if of schema.js 1052-1057): plural when more than one child of that type
was ever observed under a single parent, singular otherwise. -/
def generatedChildField (p : String × List NodeRec) : String × FieldConfig :=
  if maxChildCount p.2 > 1 then createChildrenField p.1 else createChildField p.1

/-- One iteration of the `Object.keys(childNodesByType).forEach` loop of
`addImplicitConvenienceChildrenFields` (1018-1057). -/
def implicitChildrenStep (reg : List TypeComposer) (shouldInfer : Option Bool)
    (parentTypeName : String) (acc : TypeComposer × List String) (p : String × List NodeRec) :
    Except String (TypeComposer × List String) := do
  let delta ← implicitChildWarning reg shouldInfer parentTypeName p.1 (maxChildCount p.2)
  let f := generatedChildField p
  return (setFieldEntry acc.1 f.1 (mkFieldEntry f.2), acc.2 ++ delta)

/-- `addImplicitConvenienceChildrenFields` of schema.js (1002-1058): per
observed child type, add a plural children field when the maximum number
of children of that type under a single parent exceeds 1, else a
singular child field; with inference disabled, warn unless the relation
was declared via `childOf`. -/
def addImplicitConvenienceChildrenFields (store : List NodeRec) (reg : List TypeComposer)
    (tc : TypeComposer) : Except String (TypeComposer × List String) :=
  (groupChildNodesByType store (getNodesByType store tc.name)).foldlM
    (implicitChildrenStep reg tc.infer tc.name) (tc, [])

/-! ## Basic lookup lemmas for the field-map operations -/

theorem toList_append (s t : String) : (s ++ t).toList = s.toList ++ t.toList := rfl

theorem lookupKV_nil {β : Type} (x : String) : lookupKV ([] : List (String × β)) x = none := rfl

theorem lookupKV_cons {β : Type} (k : String) (v : β) (l : List (String × β)) (x : String) :
    lookupKV ((k, v) :: l) x = if k = x then some v else lookupKV l x := by
  unfold lookupKV
  by_cases h : k = x
  · rw [List.find?_cons_of_pos _ (by simpa using h)]
    simp [h]
  · rw [List.find?_cons_of_neg _ (by simpa using h)]
    simp [h]

theorem lookupKV_append {β : Type} (l₁ l₂ : List (String × β)) (x : String) :
    lookupKV (l₁ ++ l₂) x = (lookupKV l₁ x).orElse (fun _ => lookupKV l₂ x) := by
  induction l₁ with
  | nil => simp [lookupKV_nil]
  | cons p l ih =>
    obtain ⟨k, v⟩ := p
    by_cases h : k = x <;> simp [lookupKV_cons, h, ih]

theorem lookupKV_update {β : Type} (l : List (String × β)) (f x : String) (g : β → β) :
    lookupKV (l.map (fun p => if p.1 = f then (p.1, g p.2) else p)) x =
      if x = f then (lookupKV l f).map g else lookupKV l x := by
  induction l with
  | nil => simp [lookupKV_nil]
  | cons p l ih =>
    obtain ⟨k, v⟩ := p
    by_cases hkf : k = f
    · subst hkf
      by_cases hkx : k = x
      · subst hkx
        simp [lookupKV_cons, ih]
      · have hxk : ¬(x = k) := fun h => hkx h.symm
        simp [lookupKV_cons, hkx, hxk, ih]
    · by_cases hkx : k = x
      · subst hkx
        simp [hkf, lookupKV_cons]
      · simp [hkf, lookupKV_cons, hkx, ih]

theorem lookupKV_filter_ne {β : Type} (l : List (String × β)) (f x : String) :
    lookupKV (l.filter (fun p => !(p.1 = f : Bool))) x =
      if x = f then none else lookupKV l x := by
  induction l with
  | nil => simp [lookupKV_nil]
  | cons p l ih =>
    obtain ⟨k, v⟩ := p
    by_cases hkf : k = f
    · subst hkf
      by_cases hkx : k = x
      · subst hkx
        simpa [List.filter] using ih
      · simpa [List.filter, lookupKV_cons, hkx] using ih
    · by_cases hkx : k = x
      · subst hkx
        simp [List.filter_cons, hkf, lookupKV_cons]
      · simpa [List.filter_cons, hkf, lookupKV_cons, hkx] using ih

theorem getFieldEntry_eq_lookupKV (tc : TypeComposer) (f : String) :
    getFieldEntry tc f = lookupKV tc.fields f := rfl

theorem getFieldEntry_modifyField (tc : TypeComposer) (f x : String) (g : FieldEntry → FieldEntry) :
    getFieldEntry (modifyField tc f g) x =
      if x = f then (getFieldEntry tc f).map g else getFieldEntry tc x := by
  simp only [getFieldEntry_eq_lookupKV, modifyField]
  exact lookupKV_update tc.fields f x g

theorem getFieldEntry_removeField (tc : TypeComposer) (f x : String) :
    getFieldEntry (removeField tc f) x =
      if x = f then none else getFieldEntry tc x := by
  simp only [getFieldEntry_eq_lookupKV, removeField]
  exact lookupKV_filter_ne tc.fields f x

theorem getFieldEntry_appendField (tc : TypeComposer) (f x : String) (e : FieldEntry) :
    getFieldEntry (appendField tc f e) x =
      (getFieldEntry tc x).orElse (fun _ => if f = x then some e else none) := by
  simp only [getFieldEntry_eq_lookupKV, appendField]
  rw [lookupKV_append]
  simp [lookupKV_cons, lookupKV_nil]

theorem getFieldEntry_setFieldEntry (tc : TypeComposer) (f x : String) (e : FieldEntry) :
    getFieldEntry (setFieldEntry tc f e) x =
      if x = f then some e else getFieldEntry tc x := by
  unfold setFieldEntry
  by_cases hhas : hasField tc f
  · rw [if_pos hhas, getFieldEntry_modifyField]
    unfold hasField at hhas
    by_cases hxf : x = f
    · subst hxf
      rcases hget : getFieldEntry tc x with _ | e0
      · rw [hget] at hhas; simp at hhas
      · simp
    · simp [hxf]
  · rw [if_neg hhas, getFieldEntry_appendField]
    unfold hasField at hhas
    by_cases hxf : x = f
    · subst hxf
      rcases hget : getFieldEntry tc x with _ | e0
      · simp
      · rw [hget] at hhas; simp at hhas
    · rcases hget : getFieldEntry tc x with _ | e0
      · have hfx : ¬(f = x) := fun h => hxf h.symm
        simp [hxf, hget, hfx]
      · simp [hxf, hget]

theorem getFieldEntry_extendField (tc : TypeComposer) (f x : String) (p : FieldConfigPatch) :
    getFieldEntry (extendField tc f p) x =
      if x = f then
        (getFieldEntry tc f).map (fun e => { e with config := extendFieldConfig e.config p })
      else getFieldEntry tc x := by
  unfold extendField
  exact getFieldEntry_modifyField tc f x _

theorem fields_names_modifyField (tc : TypeComposer) (f : String) (g : FieldEntry → FieldEntry) :
    (modifyField tc f g).fields.map Prod.fst = tc.fields.map Prod.fst := by
  unfold modifyField
  simp only [List.map_map]
  apply List.map_congr_left
  intro p _
  by_cases hpf : p.1 = f <;> simp [hpf]

theorem fields_names_extendField (tc : TypeComposer) (f : String) (p : FieldConfigPatch) :
    (extendField tc f p).fields.map Prod.fst = tc.fields.map Prod.fst :=
  fields_names_modifyField tc f _

/-! ## Registry lookup lemmas -/

theorem getType_cons (u : TypeComposer) (reg : List TypeComposer) (n : String) :
    getType (u :: reg) n = if u.name = n then some u else getType reg n := by
  unfold getType
  by_cases h : u.name = n
  · rw [List.find?_cons_of_pos _ (by simpa using h)]
    simp [h]
  · rw [List.find?_cons_of_neg _ (by simpa using h)]
    simp [h]

theorem getType_mapReplace_ne (reg : List TypeComposer) (t : TypeComposer) (n : String)
    (hn : ¬(t.name = n)) :
    getType (reg.map (fun u => if u.name = t.name then t else u)) n = getType reg n := by
  induction reg with
  | nil => rfl
  | cons u reg ih =>
    by_cases hu : u.name = t.name
    · have hun : ¬(u.name = n) := by rw [hu]; exact hn
      simp [getType_cons, hu, hn, hun, ih]
    · simp [getType_cons, hu, ih]

theorem getType_setType (reg : List TypeComposer) (t : TypeComposer) (n : String) :
    getType (setType reg t) n = if t.name = n then some t else getType reg n := by
  unfold setType
  by_cases hhas : hasType reg t.name
  · rw [if_pos hhas]
    unfold hasType at hhas
    induction reg with
    | nil => simp [getType] at hhas
    | cons u reg ih =>
      by_cases hu : u.name = t.name
      · by_cases htn : t.name = n
        · rw [List.map_cons, if_pos hu, getType_cons, if_pos htn, if_pos htn]
        · have hun : ¬(u.name = n) := fun h => htn (hu.symm.trans h)
          rw [List.map_cons, if_pos hu, getType_cons, if_neg htn, if_neg htn,
            getType_cons, if_neg hun, getType_mapReplace_ne reg t n htn]
      · rw [getType_cons, if_neg hu] at hhas
        by_cases hun : u.name = n
        · have htn : ¬(t.name = n) := fun h => hu (hun.trans h.symm)
          rw [List.map_cons, if_neg hu, getType_cons, if_pos hun, if_neg htn,
            getType_cons, if_pos hun]
        · rw [List.map_cons, if_neg hu, getType_cons, if_neg hun, getType_cons, if_neg hun]
          exact ih hhas
  · rw [if_neg hhas]
    unfold hasType at hhas
    unfold getType at hhas ⊢
    rw [List.find?_append]
    by_cases htn : t.name = n
    · have hnone : List.find? (fun u => decide (u.name = n)) reg = none := by
        rcases hfind : List.find? (fun u => decide (u.name = t.name)) reg with _ | u
        · rw [← htn]; exact hfind
        · rw [hfind] at hhas; simp at hhas
      rw [hnone]
      simp [List.find?, htn]
    · rcases hfind : List.find? (fun u => decide (u.name = n)) reg with _ | u <;>
        simp [hfind, List.find?, htn]

/-! ## Directive processing lemmas (towards C9 and C10) -/

theorem nodeInterfaceIdCheckFails_congr (tc1 tc2 : TypeComposer)
    (h : tc1.fields = tc2.fields) :
    nodeInterfaceIdCheckFails tc1 = nodeInterfaceIdCheckFails tc2 := by
  unfold nodeInterfaceIdCheckFails hasField getFieldEntry
  rw [h]

theorem processDirective_ne_nodeInterface_ok (tc : TypeComposer) (d : Directive)
    (hd : d ≠ .nodeInterface) :
    ∃ t1, processDirective tc d = .ok t1 ∧ t1.name = tc.name ∧ t1.kind = tc.kind ∧
      t1.fields = tc.fields ∧ t1.directives = tc.directives ∧
      t1.nodeInterface = tc.nodeInterface := by
  cases d with
  | infer ndr => cases ndr <;> exact ⟨_, rfl, rfl, rfl, rfl, rfl, rfl⟩
  | dontInfer ndr => cases ndr <;> exact ⟨_, rfl, rfl, rfl, rfl, rfl, rfl⟩
  | mimeTypes a => exact ⟨_, rfl, rfl, rfl, rfl, rfl, rfl⟩
  | childOf a => exact ⟨_, rfl, rfl, rfl, rfl, rfl, rfl⟩
  | nodeInterface => exact absurd rfl hd
  | other n => exact ⟨_, rfl, rfl, rfl, rfl, rfl, rfl⟩

/-- Successful directive-fold runs preserve the composer identity and set
the `nodeInterface` extension exactly when the list contains the
`nodeInterface` directive on an interface composer. -/
theorem dirFold_spec (ds : List Directive) (tc : TypeComposer)
    (hok : tc.kind = .interface → nodeInterfaceIdCheckFails tc = false) :
    ∃ tc2, ds.foldlM processDirective tc = .ok tc2 ∧
      tc2.name = tc.name ∧ tc2.kind = tc.kind ∧ tc2.fields = tc.fields ∧
      tc2.directives = tc.directives ∧
      tc2.nodeInterface =
        (if Directive.nodeInterface ∈ ds ∧ tc.kind = .interface then some true
         else tc.nodeInterface) := by
  induction ds generalizing tc with
  | nil => exact ⟨tc, rfl, rfl, rfl, rfl, rfl, by simp⟩
  | cons d ds ih =>
    by_cases hd : d = Directive.nodeInterface
    · subst hd
      by_cases hk : tc.kind = .interface
      · have hchk := hok hk
        have hstep : processDirective tc .nodeInterface = .ok { tc with nodeInterface := some true } := by
          simp [processDirective, hk, hchk]
        obtain ⟨tc2, hfold, hn, hkk, hf, hdir, hni⟩ :=
          ih { tc with nodeInterface := some true }
            (fun _ =>
              (nodeInterfaceIdCheckFails_congr { tc with nodeInterface := some true } tc rfl).trans hchk)
        refine ⟨tc2, ?_, hn, hkk, hf, hdir, ?_⟩
        · rw [List.foldlM_cons, hstep]
          exact hfold
        · rw [hni]
          split <;> simp_all
      · have hstep : processDirective tc .nodeInterface = .ok tc := by
          simp [processDirective, hk]
        obtain ⟨tc2, hfold, hn, hkk, hf, hdir, hni⟩ := ih tc hok
        refine ⟨tc2, ?_, hn, hkk, hf, hdir, ?_⟩
        · rw [List.foldlM_cons, hstep]
          exact hfold
        · rw [hni]
          split <;> split <;> simp_all
    · obtain ⟨t1, hstep, hn1, hk1, hf1, hdir1, hni1⟩ := processDirective_ne_nodeInterface_ok tc d hd
      obtain ⟨tc2, hfold, hn, hkk, hf, hdir, hni⟩ :=
        ih t1 (fun h => by
          rw [nodeInterfaceIdCheckFails_congr t1 tc hf1]
          exact hok (hk1 ▸ h))
      refine ⟨tc2, ?_, hn.trans hn1, hkk.trans hk1, hf.trans hf1, hdir.trans hdir1, ?_⟩
      · rw [List.foldlM_cons, hstep]
        exact hfold
      · rw [hni, hni1, hk1]
        have hmem : (Directive.nodeInterface ∈ d :: ds) ↔ (Directive.nodeInterface ∈ ds) := by
          constructor
          · intro h
            rcases List.mem_cons.mp h with h | h
            · exact absurd h.symm hd
            · exact h
          · intro h
            exact List.mem_cons_of_mem d h
        split <;> split <;> simp_all

/-- A directive fold over a list containing `nodeInterface`, on an
interface composer whose `id` check fails, panics with the
`nodeInterface` message. -/
theorem dirFold_error (ds : List Directive) (tc : TypeComposer)
    (hk : tc.kind = .interface) (hbad : nodeInterfaceIdCheckFails tc = true)
    (hmem : Directive.nodeInterface ∈ ds) :
    ds.foldlM processDirective tc = .error (nodeInterfacePanicMsg tc.name) := by
  induction ds generalizing tc with
  | nil => simp at hmem
  | cons d ds ih =>
    by_cases hd : d = Directive.nodeInterface
    · subst hd
      have hstep : processDirective tc .nodeInterface = .error (nodeInterfacePanicMsg tc.name) := by
        simp [processDirective, hk, hbad]
      rw [List.foldlM_cons, hstep]
      rfl
    · have hmem2 : Directive.nodeInterface ∈ ds := by
        rcases List.mem_cons.mp hmem with h | h
        · exact absurd h.symm hd
        · exact h
      obtain ⟨t1, hstep, hn1, hk1, hf1, _, _⟩ := processDirective_ne_nodeInterface_ok tc d hd
      rw [List.foldlM_cons, hstep]
      have := ih t1 (hk1.trans hk)
        ((nodeInterfaceIdCheckFails_congr t1 tc hf1).trans hbad) hmem2
      rw [hn1] at this
      exact this

/-! ## C9 and C10: the `nodeInterface` directive -/

theorem except_bind_pure {ε α β : Type} (x : Except ε α) (f : α → β) :
    (x >>= fun a => pure (f a) : Except ε β) = x.map f := by
  cases x <;> rfl

theorem addExtensions_sdl_eq (tc : TypeComposer) (plugin : Option String) :
    addExtensions tc plugin "sdl" =
      (({ tc with createdFrom := some "sdl", pluginExt := plugin } : TypeComposer).directives.foldlM
          processDirective { tc with createdFrom := some "sdl", pluginExt := plugin }).map
        (fun t => (stampAllFields "sdl" plugin t,
          deprecationReports (stampAllFields "sdl" plugin t))) := by
  show Except.map _ (if ("sdl" : String) = "sdl" then _ else _) = _
  rw [if_pos rfl]

/-- C9: for every type processed from a textual schema definition (SDL)
carrying a `nodeInterface` directive, if the record is of interface kind
but does not declare a field `id` of exactly type `ID!`, `addExtensions`
aborts the build with the panic naming the offending type; if the
identity field is present with that type, the `nodeInterface` extension
is set to `true` on the record. -/
theorem nodeInterface_directive_requires_id_field (tc : TypeComposer) (plugin : Option String)
    (hk : tc.kind = .interface) (hmem : Directive.nodeInterface ∈ tc.directives) :
    (nodeInterfaceIdCheckFails tc = true →
      addExtensions tc plugin "sdl" = .error (nodeInterfacePanicMsg tc.name)) ∧
    (nodeInterfaceIdCheckFails tc = false →
      ∃ tc2 reports, addExtensions tc plugin "sdl" = .ok (tc2, reports) ∧
        tc2.nodeInterface = some true) := by
  rw [addExtensions_sdl_eq]
  set tc0 : TypeComposer := { tc with createdFrom := some "sdl", pluginExt := plugin } with htc0
  have hcongr : nodeInterfaceIdCheckFails tc0 = nodeInterfaceIdCheckFails tc :=
    nodeInterfaceIdCheckFails_congr tc0 tc rfl
  constructor
  · intro hbad
    have hfold : tc0.directives.foldlM processDirective tc0 =
        .error (nodeInterfacePanicMsg tc0.name) :=
      dirFold_error tc0.directives tc0 hk (hcongr.trans hbad) hmem
    rw [hfold]
    rfl
  · intro hgood
    obtain ⟨tc2, hfold, hn, hkk, hf, hdir, hni⟩ :=
      dirFold_spec tc0.directives tc0 (fun _ => hcongr.trans hgood)
    have hmem0 : Directive.nodeInterface ∈ tc0.directives := hmem
    rw [hfold]
    refine ⟨_, _, rfl, ?_⟩
    have hni2 : tc2.nodeInterface = some true := by
      rw [hni]
      rw [if_pos]
      exact ⟨hmem0, hk⟩
    unfold stampAllFields
    split <;> exact hni2

/-- Witness for C9 at concrete inputs: an interface with a
`nodeInterface` directive and no `id` field panics; one with
`id: ID!` gets the `nodeInterface` extension. -/
theorem nodeInterface_directive_requires_id_field_witness :
    (addExtensions { name := "Foo", kind := .interface, directives := [Directive.nodeInterface] } none "sdl" =
      .error (nodeInterfacePanicMsg "Foo")) ∧
    (∃ tc2 reports,
      addExtensions { name := "Bar", kind := .interface, fields := [("id", mkFieldEntry { type := "ID!" })], directives := [Directive.nodeInterface] } none "sdl" = .ok (tc2, reports) ∧
      tc2.nodeInterface = some true) := by
  constructor
  · exact (nodeInterface_directive_requires_id_field _ none rfl (by decide)).1 (by decide)
  · exact (nodeInterface_directive_requires_id_field _ none rfl (by decide)).2 (by decide)

/-- C10: a `nodeInterface` directive attached via SDL to a record that is
not of interface kind is silently ignored: the directive step returns
the composer unchanged, `addExtensions` succeeds with no warning or
error report, and no `nodeInterface` extension is set. -/
theorem nodeInterface_directive_ignored_on_non_interface (tc : TypeComposer)
    (plugin : Option String) (hk : ¬(tc.kind = .interface))
    (hdir : tc.directives = [Directive.nodeInterface])
    (hni : tc.nodeInterface = none) (hadr : tc.addDefaultResolvers = none) :
    processDirective tc Directive.nodeInterface = .ok tc ∧
    ∃ tc2, addExtensions tc plugin "sdl" = .ok (tc2, []) ∧ tc2.nodeInterface = none := by
  have hstep0 : processDirective tc Directive.nodeInterface = .ok tc := by
    simp [processDirective, hk]
  refine ⟨hstep0, ?_⟩
  rw [addExtensions_sdl_eq]
  set tc0 : TypeComposer := { tc with createdFrom := some "sdl", pluginExt := plugin } with htc0
  have hstep : processDirective tc0 Directive.nodeInterface = .ok tc0 := by
    simp only [processDirective]
    rw [if_neg]
    exact hk
  have hfold : tc0.directives.foldlM processDirective tc0 = .ok tc0 := by
    show (tc.directives).foldlM processDirective tc0 = .ok tc0
    rw [hdir, List.foldlM_cons, hstep]
    rfl
  rw [hfold]
  have hadr2 : (stampAllFields "sdl" plugin tc0).addDefaultResolvers = none := by
    unfold stampAllFields
    split <;> exact hadr
  have hni2 : (stampAllFields "sdl" plugin tc0).nodeInterface = none := by
    unfold stampAllFields
    split <;> exact hni
  refine ⟨stampAllFields "sdl" plugin tc0, ?_, hni2⟩
  show Except.ok _ = Except.ok _
  have hrep : deprecationReports (stampAllFields "sdl" plugin tc0) = [] := by
    unfold deprecationReports
    rw [if_neg]
    simp [hadr2]
  simp only [hrep]

/-- Witness for C10 at a concrete input: an object type with a
`nodeInterface` directive passes through `addExtensions` untouched,
without reports. -/
theorem nodeInterface_directive_ignored_on_non_interface_witness :
    processDirective { name := "Obj", kind := .object, directives := [Directive.nodeInterface] } Directive.nodeInterface =
      .ok { name := "Obj", kind := .object, directives := [Directive.nodeInterface] } ∧
    ∃ tc2, addExtensions { name := "Obj", kind := .object, directives := [Directive.nodeInterface] } none "sdl" = .ok (tc2, []) ∧
      tc2.nodeInterface = none :=
  nodeInterface_directive_ignored_on_non_interface _ none (by decide) rfl rfl rfl

/-! ## C6: queryable-interface validation -/

theorem infix_of_mem_backtickJoin (x : String) (names : List String) (hx : x ∈ names) :
    x.toList <:+: (backtickJoin names).toList := by
  induction names with
  | nil => simp at hx
  | cons t rest ih =>
    rcases List.mem_cons.mp hx with h | h
    · subst h
      cases rest with
      | nil =>
        refine ⟨"`".toList, "`".toList, ?_⟩
        show "`".toList ++ x.toList ++ "`".toList = ("`" ++ x ++ "`").toList
        simp [toList_append]
      | cons u us =>
        refine ⟨"`".toList, ("`" ++ ", " ++ backtickJoin (u :: us)).toList, ?_⟩
        show "`".toList ++ x.toList ++ ("`" ++ ", " ++ backtickJoin (u :: us)).toList =
          ("`" ++ x ++ "`" ++ ", " ++ backtickJoin (u :: us)).toList
        simp [toList_append, List.append_assoc]
    · cases rest with
      | nil => simp at h
      | cons u us =>
        obtain ⟨s, e, hse⟩ := ih h
        refine ⟨("`" ++ t ++ "`" ++ ", ").toList ++ s, e, ?_⟩
        show ("`" ++ t ++ "`" ++ ", ").toList ++ s ++ x.toList ++ e =
          ("`" ++ t ++ "`" ++ ", " ++ backtickJoin (u :: us)).toList
        simp only [toList_append]
        rw [← hse]
        simp [List.append_assoc]

theorem infix_of_mem_queryableInterfacesPanicMsg (x : String) (names : List String)
    (hx : x ∈ names) :
    x.toList <:+: (queryableInterfacesPanicMsg names).toList := by
  obtain ⟨s, e, hse⟩ := infix_of_mem_backtickJoin x names hx
  unfold queryableInterfacesPanicMsg
  refine ⟨("Interfaces with the `nodeInterface` extension must only be " ++
    "implemented by types which also implement the `Node` " ++
    "interface. Check the type definition of ").toList ++ s, e ++ ".".toList, ?_⟩
  simp only [toList_append]
  rw [← hse]
  simp [List.append_assoc]

/-- The violation condition of the second scan of
`checkQueryableInterfaces`, as a proposition. -/
def ViolatesQueryableInterface (reg : List TypeComposer) (t : TypeComposer) : Prop :=
  t.kind = .object ∧ (∃ i ∈ t.interfaces, i ∈ queryableInterfaces reg) ∧
    ¬("Node" ∈ t.interfaces)

theorem mem_incorrectQueryableTypes (reg : List TypeComposer) (t : TypeComposer)
    (ht : t ∈ reg) (hv : ViolatesQueryableInterface reg t) :
    t.name ∈ incorrectQueryableTypes reg := by
  obtain ⟨hk, ⟨i, hi, hq⟩, hn⟩ := hv
  unfold incorrectQueryableTypes
  refine List.mem_map.mpr ⟨t, ?_, rfl⟩
  refine List.mem_filter.mpr ⟨ht, ?_⟩
  simp only [Bool.and_eq_true, beq_iff_eq, List.any_eq_true, Bool.not_eq_true]
  refine ⟨⟨hk, ⟨i, hi, ?_⟩⟩, ?_⟩
  · simpa using hq
  · simpa using hn

theorem incorrectQueryableTypes_eq_nil_iff (reg : List TypeComposer) :
    incorrectQueryableTypes reg = [] ↔ ∀ t ∈ reg, ¬ViolatesQueryableInterface reg t := by
  constructor
  · intro hnil t ht hv
    have := mem_incorrectQueryableTypes reg t ht hv
    rw [hnil] at this
    simp at this
  · intro hall
    unfold incorrectQueryableTypes
    rw [List.map_eq_nil_iff, List.filter_eq_nil_iff]
    intro t ht
    simp only [Bool.and_eq_true, beq_iff_eq, List.any_eq_true, Bool.not_eq_true]
    intro hcon
    obtain ⟨⟨hk, ⟨i, hi, hq⟩⟩, hn⟩ := hcon
    exact hall t ht ⟨hk, ⟨i, hi, by simpa using hq⟩, by simpa using hn⟩

/-- C6: after composition, `checkQueryableInterfaces` scans the whole
registry; it succeeds exactly when no object type implements a
queryable (`nodeInterface`-extended) interface without implementing
`Node`, and when violators exist it fails with one fatal error whose
message names every violating object type. -/
theorem checkQueryableInterfaces_collects_all_violators (reg : List TypeComposer) :
    (checkQueryableInterfaces reg = .ok () ↔
      ∀ t ∈ reg, ¬ViolatesQueryableInterface reg t) ∧
    (∀ t ∈ reg, ViolatesQueryableInterface reg t →
      checkQueryableInterfaces reg =
        .error (queryableInterfacesPanicMsg (incorrectQueryableTypes reg)) ∧
      t.name.toList <:+: (queryableInterfacesPanicMsg (incorrectQueryableTypes reg)).toList) := by
  constructor
  · unfold checkQueryableInterfaces
    rw [← incorrectQueryableTypes_eq_nil_iff]
    constructor
    · intro h
      by_cases hempty : (incorrectQueryableTypes reg).isEmpty
      · exact List.isEmpty_iff.mp hempty
      · rw [if_neg hempty] at h
        exact absurd h (by simp)
    · intro h
      rw [if_pos (List.isEmpty_iff.mpr h)]
  · intro t ht hv
    have hmem := mem_incorrectQueryableTypes reg t ht hv
    have hne : ¬(incorrectQueryableTypes reg).isEmpty := by
      intro h
      rw [List.isEmpty_iff.mp h] at hmem
      simp at hmem
    constructor
    · unfold checkQueryableInterfaces
      rw [if_neg hne]
    · exact infix_of_mem_queryableInterfacesPanicMsg t.name _ hmem

/-- Witness for C6 at a concrete registry: interface `I` is queryable,
object `A` implements it together with `Node`, object `B` implements it
without `Node`; the check fails and the message names `B`. -/
theorem checkQueryableInterfaces_collects_all_violators_witness :
    checkQueryableInterfaces
        [{ name := "I", kind := .interface, nodeInterface := some true },
         { name := "A", kind := .object, interfaces := ["I", "Node"] },
         { name := "B", kind := .object, interfaces := ["I"] }] =
      .error (queryableInterfacesPanicMsg ["B"]) ∧
    ("B".toList <:+:
      (queryableInterfacesPanicMsg ["B"]).toList) := by
  have h := (checkQueryableInterfaces_collects_all_violators
    [{ name := "I", kind := .interface, nodeInterface := some true },
     { name := "A", kind := .object, interfaces := ["I", "Node"] },
     { name := "B", kind := .object, interfaces := ["I"] }]).2
    { name := "B", kind := .object, interfaces := ["I"] }
    (by simp)
    (by refine ⟨rfl, ⟨"I", by simp, by decide⟩, by decide⟩)
  have hinc : incorrectQueryableTypes
      [{ name := "I", kind := .interface, nodeInterface := some true },
       { name := "A", kind := .object, interfaces := ["I", "Node"] },
       { name := "B", kind := .object, interfaces := ["I"] }] = ["B"] := by decide
  rw [hinc] at h
  exact h

/-! ## C2: reserved and invalid type names abort every intake path -/

theorem infix_mid (a x b : String) : x.toList <:+: (a ++ x ++ b).toList := by
  refine ⟨a.toList, b.toList, ?_⟩
  simp [toList_append, List.append_assoc]

/-- The name conditions of the claim: the reserved capability-marker
name, the two reserved suffixes, a built-in scalar name, or a
syntactically invalid identifier. -/
def BadTypeName (name : String) : Prop :=
  name = "Node" ∨ strEndsWith name "FilterInput" = true ∨ strEndsWith name "SortInput" = true ∨
    name ∈ builtInScalarNames ∨ isValidGraphQLName name = false

theorem checkIsAllowedTypeName_bad (name : String) (h : BadTypeName name) :
    ∃ m, checkIsAllowedTypeName name = .error m ∧ name.toList <:+: m.toList := by
  unfold checkIsAllowedTypeName
  by_cases h1 : name = "Node"
  · subst h1
    exact ⟨reservedNodeMsg, by rw [if_pos rfl], by decide⟩
  · rw [if_neg h1]
    by_cases h2 : (strEndsWith name "FilterInput" || strEndsWith name "SortInput") = true
    · rw [if_pos h2]
      refine ⟨reservedSuffixMsg name, rfl, ?_⟩
      unfold reservedSuffixMsg
      exact infix_mid _ name _
    · rw [if_neg h2]
      by_cases h3 : builtInScalarNames.contains name = true
      · rw [if_pos h3]
        refine ⟨reservedScalarMsg name, rfl, ?_⟩
        unfold reservedScalarMsg
        exact infix_mid _ name _
      · rw [if_neg h3]
        have h5 : isValidGraphQLName name = false := by
          rcases h with h | h | h | h | h
          · exact absurd h h1
          · simp [h] at h2
          · simp [h] at h2
          · exact absurd (by simpa using h) h3
          · exact h
        unfold assertValidName
        by_cases h4 : strStartsWith name "__" = true
        · rw [if_pos h4]
          refine ⟨introspectionNameMsg name, rfl, ?_⟩
          unfold introspectionNameMsg
          exact infix_mid _ name _
        · rw [if_neg h4, if_pos (by simp [h5])]
          refine ⟨invalidNameMsg name, rfl, ?_⟩
          unfold invalidNameMsg
          exact infix_mid _ name _

theorem parseTypes_stopped (doc : List TypeComposer) (plugin : Option String)
    (st : SchemaComposerState) (ts : List TypeComposer) (ws : List String) (e : SchemaError) :
    doc.foldl (parseTypesStep plugin) (st, ts, ws, some e) = (st, ts, ws, some e) := by
  induction doc with
  | nil => rfl
  | cons d doc ih =>
    rw [List.foldl_cons]
    exact ih

theorem addTypes_singleton_error (st : SchemaComposerState) (src : TypeSource)
    (plugin : Option String) (e : SchemaError)
    (h : addTypeSource st src plugin = .error e) :
    addTypes st [(src, plugin)] = .error e := by
  unfold addTypes
  rw [List.foldlM_cons]
  show (match addTypeSource st src plugin with
    | .error e => Except.error e
    | .ok (st2, ws2) => Except.ok (st2, [] ++ ws2)) >>= _ = .error e
  rw [h]
  rfl

theorem createTypeComposer_ok (gt : GatsbyType) (h : gt.kind ≠ .illegal) :
    ∃ tp ws, createTypeComposerFromGatsbyType gt = (some tp, ws) ∧
      tp.name = gt.config.name := by
  rcases gt with ⟨k, cfg⟩
  cases k
  case illegal => exact absurd rfl h
  all_goals exact ⟨_, _, rfl, rfl⟩

/-- C2: for every incoming type from any intake source (SDL document,
type-builder descriptor, native type object) whose name is the reserved
name `Node`, ends in `FilterInput` or `SortInput`, equals a built-in
scalar name, or is not a valid identifier, intake fails fatally (no
registry state is produced, so the type is never registered) and the
error names the offending type. -/
theorem badTypeName_intake_fails_fatally (name : String) (hbad : BadTypeName name)
    (st : SchemaComposerState) (plugin : Option String) :
    (∀ d rest, d.name = name →
      ∃ e, addTypes st [(.sdl (d :: rest), plugin)] = .error e ∧
        name.toList <:+: e.msg.toList) ∧
    (∀ gt, gt.config.name = name → gt.kind ≠ .illegal →
      ∃ e, addTypes st [(.builder gt, plugin)] = .error e ∧
        name.toList <:+: e.msg.toList) ∧
    (∀ t, t.name = name →
      ∃ e, addTypes st [(.native t, plugin)] = .error e ∧
        name.toList <:+: e.msg.toList) := by
  obtain ⟨m, hcheck, hinf⟩ := checkIsAllowedTypeName_bad name hbad
  refine ⟨?_, ?_, ?_⟩
  · intro d rest hd
    refine ⟨.invariantViolation m, ?_, hinf⟩
    apply addTypes_singleton_error
    have hpt : parseTypes st (d :: rest) plugin =
        (st, [], [], some (.invariantViolation m)) := by
      unfold parseTypes
      rw [List.foldl_cons]
      have hstep : parseTypesStep plugin (st, ([], [], none)) d =
          (st, [], [], some (.invariantViolation m)) := by
        unfold parseTypesStep
        rw [hd, hcheck]
      rw [hstep]
      exact parseTypes_stopped rest plugin st [] [] _
    show (match parseTypes st (d :: rest) plugin with
      | (st, parsedTypes, ws, err) =>
        match err with
        | some (.panic m) => Except.error (.panic m)
        | some e =>
          match reportParsingError e with
          | some e2 => Except.error e2
          | none => Except.ok (st, ws)
        | none =>
          parsedTypes.foldlM (fun acc t =>
            match processAddedType acc.1 t plugin "sdl" with
            | .error m => Except.error (.panic m)
            | .ok (st2, rs) => Except.ok (st2, acc.2 ++ rs)) (st, ws)) =
      Except.error (.invariantViolation m)
    rw [hpt]
    rfl
  · intro gt hname hlegal
    obtain ⟨tp, ws, hcreate, htp⟩ := createTypeComposer_ok gt hlegal
    refine ⟨.invariantViolation m, ?_, hinf⟩
    apply addTypes_singleton_error
    show (match createTypeComposerFromGatsbyType gt with
      | (none, ws) => Except.ok (st, ws)
      | (some tp, ws) =>
        match checkIsAllowedTypeName tp.name with
        | .error m => Except.error (.invariantViolation m)
        | .ok _ =>
          match getType st.types tp.name with
          | some existing =>
            match mergeTypes existing { tc := tp, isComposer := true } plugin "typeBuilder" with
            | .error m => Except.error (.panic m)
            | .ok (merged, mws, _) =>
              Except.ok ({ st with types := setType st.types merged }, ws ++ mws)
          | none =>
            match processAddedType st tp plugin "typeBuilder" with
            | .error m => Except.error (.panic m)
            | .ok (st2, rs) => Except.ok (st2, ws ++ rs)) =
      Except.error (SchemaError.invariantViolation m)
    rw [hcreate]
    show (match checkIsAllowedTypeName tp.name with
      | .error m => Except.error (SchemaError.invariantViolation m)
      | .ok _ =>
        match getType st.types tp.name with
        | some existing =>
          match mergeTypes existing { tc := tp, isComposer := true } plugin "typeBuilder" with
          | .error m => Except.error (.panic m)
          | .ok (merged, mws, _) =>
            Except.ok ({ st with types := setType st.types merged }, ws ++ mws)
        | none =>
          match processAddedType st tp plugin "typeBuilder" with
          | .error m => Except.error (.panic m)
          | .ok (st2, rs) => Except.ok (st2, ws ++ rs)) =
      Except.error (SchemaError.invariantViolation m)
    rw [htp.trans hname, hcheck]
  · intro t hname
    refine ⟨.invariantViolation m, ?_, hinf⟩
    apply addTypes_singleton_error
    show (match checkIsAllowedTypeName t.name with
      | .error m => Except.error (SchemaError.invariantViolation m)
      | .ok _ =>
        match getType st.types t.name with
        | some existing =>
          match mergeTypes existing { tc := t, isComposer := false } plugin "graphql-js" with
          | .error m => Except.error (.panic m)
          | .ok (merged, mws, _) => Except.ok ({ st with types := setType st.types merged }, mws)
        | none =>
          match processAddedType st t plugin "graphql-js" with
          | .error m => Except.error (.panic m)
          | .ok (st2, rs) => Except.ok (st2, rs)) =
      Except.error (SchemaError.invariantViolation m)
    rw [hname, hcheck]

/-- Witness for C2 at concrete inputs: the reserved suffix name
`FooFilterInput` aborts each of the three intake paths. -/
theorem badTypeName_intake_fails_fatally_witness :
    (∃ e, addTypes { types := [] } [(.sdl [{ name := "FooFilterInput", kind := .object }], none)] = .error e ∧
      "FooFilterInput".toList <:+: e.msg.toList) ∧
    (∃ e, addTypes { types := [] } [(.builder { kind := .object, config := { name := "FooFilterInput" } }, none)] = .error e ∧
      "FooFilterInput".toList <:+: e.msg.toList) ∧
    (∃ e, addTypes { types := [] } [(.native { name := "FooFilterInput", kind := .object }, none)] = .error e ∧
      "FooFilterInput".toList <:+: e.msg.toList) := by
  have h := badTypeName_intake_fails_fatally "FooFilterInput"
    (Or.inr (Or.inl (by decide))) { types := [] } none
  exact ⟨h.1 { name := "FooFilterInput", kind := .object } [] rfl,
    h.2.1 { kind := .object, config := { name := "FooFilterInput" } } rfl (by decide),
    h.2.2 { name := "FooFilterInput", kind := .object } rfl⟩

/-! ## C7: ownership checking never blocks a merge -/

theorem infix_append_left_str (x m : String) (l : List Char) (h : l <:+: m.toList) :
    l <:+: (x ++ m).toList := by
  obtain ⟨s, e, he⟩ := h
  refine ⟨x.toList ++ s, e, ?_⟩
  rw [toList_append, ← he]
  simp [List.append_assoc]

theorem except_map_isOk_iff {ε α β : Type} (x : Except ε α) (f : α → β) :
    (∃ b, x.map f = .ok b) ↔ ∃ a, x = .ok a := by
  cases x <;> simp [Except.map]

theorem except_map_ok {ε α β : Type} (x : Except ε α) (f : α → β) (b : β)
    (h : x.map f = .ok b) : ∃ a, x = .ok a ∧ b = f a := by
  cases x with
  | error m => simp [Except.map] at h
  | ok a =>
    refine ⟨a, rfl, ?_⟩
    simpa [Except.map] using h.symm

theorem addExtensions_eq (tc : TypeComposer) (p : Option String) (cf : String) :
    addExtensions tc p cf =
      (if cf = "sdl" then
        ({ tc with createdFrom := some cf, pluginExt := p } : TypeComposer).directives.foldlM
          processDirective { tc with createdFrom := some cf, pluginExt := p }
      else pure { tc with createdFrom := some cf, pluginExt := p }).map
        (fun t => (stampAllFields cf p t, deprecationReports (stampAllFields cf p t))) := rfl

theorem dirFold_ok_of_not_mem (ds : List Directive) (tc : TypeComposer)
    (h : Directive.nodeInterface ∉ ds) :
    ∃ tc2, ds.foldlM processDirective tc = .ok tc2 := by
  induction ds generalizing tc with
  | nil => exact ⟨tc, rfl⟩
  | cons d ds ih =>
    have hd : d ≠ Directive.nodeInterface := fun he => h (he ▸ List.mem_cons_self d ds)
    obtain ⟨t1, hstep, _, _, _, _, _⟩ := processDirective_ne_nodeInterface_ok tc d hd
    obtain ⟨t2, hfold⟩ := ih t1 (fun hm => h (List.mem_cons_of_mem d hm))
    refine ⟨t2, ?_⟩
    rw [List.foldlM_cons, hstep]
    exact hfold

theorem addExtensions_isOk_iff (tc : TypeComposer) (p : Option String) (cf : String) :
    (∃ r, addExtensions tc p cf = .ok r) ↔
      (cf = "sdl" → ¬(tc.kind = .interface ∧ nodeInterfaceIdCheckFails tc = true ∧
        Directive.nodeInterface ∈ tc.directives)) := by
  rw [addExtensions_eq, except_map_isOk_iff]
  set tc0 : TypeComposer := { tc with createdFrom := some cf, pluginExt := p } with htc0
  have hchk : nodeInterfaceIdCheckFails tc0 = nodeInterfaceIdCheckFails tc :=
    nodeInterfaceIdCheckFails_congr tc0 tc rfl
  by_cases hcf : cf = "sdl"
  · rw [if_pos hcf]
    constructor
    · rintro ⟨t2, hfold⟩ hcf2 ⟨hk, hbad, hmem⟩
      rw [dirFold_error tc0.directives tc0 hk (hchk.trans hbad) hmem] at hfold
      exact Except.noConfusion hfold
    · intro hno0
      have hno := hno0 hcf
      by_cases hmem : Directive.nodeInterface ∈ tc.directives
      · have hok : tc0.kind = .interface → nodeInterfaceIdCheckFails tc0 = false := by
          intro hk
          rw [hchk]
          rcases hb : nodeInterfaceIdCheckFails tc with _ | _
          · rfl
          · exact absurd ⟨hk, hb, hmem⟩ hno
        obtain ⟨t2, hfold, _⟩ := dirFold_spec tc0.directives tc0 hok
        exact ⟨t2, hfold⟩
      · exact dirFold_ok_of_not_mem tc0.directives tc0 hmem
  · rw [if_neg hcf]
    constructor
    · intro _ hcf2
      exact absurd hcf2 hcf
    · intro _
      exact ⟨tc0, rfl⟩

theorem addExtensions_reports (tc : TypeComposer) (p : Option String) (cf : String)
    (a : TypeComposer) (rep : List String) (h : addExtensions tc p cf = .ok (a, rep)) :
    rep = deprecationReports a := by
  rw [addExtensions_eq] at h
  obtain ⟨t, _, hb⟩ := except_map_ok _ _ _ h
  have h1 := congrArg Prod.fst hb
  have h2 := congrArg Prod.snd hb
  simp only at h1 h2
  rw [h2, h1]

theorem mergeTypes_eq (tc : TypeComposer) (incoming : IncomingType) (plugin : Option String)
    (createdFrom : String) :
    mergeTypes tc incoming plugin createdFrom =
      (addExtensions (mergeCore tc incoming) plugin createdFrom).map
        (fun r => (r.1, mergeWarnings plugin tc ++ r.2, true)) := by
  unfold mergeTypes
  cases h : addExtensions (mergeCore tc incoming) plugin createdFrom with
  | error m => rfl
  | ok r =>
    obtain ⟨a, b⟩ := r
    rfl

theorem mergeTypes_isOk_iff (tc : TypeComposer) (incoming : IncomingType)
    (plugin : Option String) (createdFrom : String) :
    (∃ r, mergeTypes tc incoming plugin createdFrom = .ok r) ↔
      (createdFrom = "sdl" → ¬((mergeCore tc incoming).kind = .interface ∧
        nodeInterfaceIdCheckFails (mergeCore tc incoming) = true ∧
        Directive.nodeInterface ∈ (mergeCore tc incoming).directives)) := by
  rw [mergeTypes_eq, except_map_isOk_iff]
  exact addExtensions_isOk_iff _ _ _

/-- C7: the merge is safe exactly when the incoming owner is unset, is
`default-site-plugin`, or equals the existing record's owner extension;
an unsafe merge emits one warning naming the incoming plugin (and the
existing owner when one is recorded), prepended to the other reports;
and whether `mergeTypes` succeeds does not depend on the incoming owner
at all — an ownership mismatch never blocks the merge. -/
theorem mergeTypes_ownership_never_blocks (tc : TypeComposer) (incoming : IncomingType)
    (plugin : Option String) (createdFrom : String) :
    (isSafeMerge plugin tc.pluginExt = true ↔
      (plugin = none ∨ plugin = some "default-site-plugin" ∨
        (∃ p, plugin = some p ∧ tc.pluginExt = some p))) ∧
    (∀ res ws b, mergeTypes tc incoming plugin createdFrom = .ok (res, ws, b) →
      b = true ∧ ws = mergeWarnings plugin tc ++ deprecationReports res ∧
      (isSafeMerge plugin tc.pluginExt = false →
        ∃ w, mergeWarnings plugin tc = [w] ∧
          (∀ p, plugin = some p → p.toList <:+: w.toList) ∧
          (truthyOwner tc.pluginExt = true →
            ∀ o, tc.pluginExt = some o → o.toList <:+: w.toList))) ∧
    ((∃ r, mergeTypes tc incoming plugin createdFrom = .ok r) ↔
      (∃ r, mergeTypes tc incoming none createdFrom = .ok r)) := by
  refine ⟨?_, ?_, ?_⟩
  · unfold isSafeMerge
    cases plugin with
    | none => simp
    | some p =>
      simp only [Bool.or_eq_true, beq_iff_eq]
      constructor
      · rintro (h | h)
        · exact Or.inr (Or.inl (by rw [h]))
        · exact Or.inr (Or.inr ⟨p, rfl, h⟩)
      · rintro (h | h | ⟨q, hq, ho⟩)
        · exact Option.noConfusion h
        · exact Or.inl (by injection h)
        · injection hq with hq
          subst hq
          exact Or.inr ho
  · intro res ws b h
    rw [mergeTypes_eq] at h
    obtain ⟨r, hadd, hb⟩ := except_map_ok _ _ _ h
    obtain ⟨a, rep⟩ := r
    have h1 := congrArg (fun t => t.1) hb
    have h2 := congrArg (fun t => t.2.1) hb
    have h3 := congrArg (fun t => t.2.2) hb
    simp only at h1 h2 h3
    have hrep : rep = deprecationReports a := addExtensions_reports _ _ _ _ _ hadd
    refine ⟨h3, ?_, ?_⟩
    · rw [h2, hrep, h1]
    · intro hnosafe
      unfold mergeWarnings
      rw [if_neg (by simp [hnosafe])]
      cases plugin with
      | none => simp [isSafeMerge] at hnosafe
      | some p =>
        by_cases ht : truthyOwner tc.pluginExt = true
        · refine ⟨unsafeHasOwnerWarning p tc.name (tc.pluginExt.getD ""), ?_, ?_, ?_⟩
          · show (if truthyOwner tc.pluginExt = true
                then [unsafeHasOwnerWarning p tc.name (tc.pluginExt.getD "")]
                else [unsafeBuiltInWarning p tc.name]) = _
            rw [if_pos ht]
          · intro q hq
            injection hq with hq
            subst hq
            unfold unsafeHasOwnerWarning
            exact infix_mid _ _ _
          · intro _ o ho
            unfold unsafeHasOwnerWarning
            have hgd : tc.pluginExt.getD "" = o := by rw [ho]; rfl
            rw [hgd]
            apply infix_append_left_str
            apply infix_append_left_str
            exact infix_mid _ _ _
        · refine ⟨unsafeBuiltInWarning p tc.name, ?_, ?_, ?_⟩
          · show (if truthyOwner tc.pluginExt = true
                then [unsafeHasOwnerWarning p tc.name (tc.pluginExt.getD "")]
                else [unsafeBuiltInWarning p tc.name]) = _
            rw [if_neg ht]
          · intro q hq
            injection hq with hq
            subst hq
            unfold unsafeBuiltInWarning
            exact infix_mid _ _ _
          · intro htr
            exact absurd htr ht
  · rw [mergeTypes_isOk_iff, mergeTypes_isOk_iff]

/-- Witness for C7: a plugin-owned type merged by a different plugin
still merges successfully, with the unsafe warning naming both owners. -/
theorem mergeTypes_ownership_never_blocks_witness :
    (isSafeMerge (some "plugin-b") (some "plugin-a") = true ↔
      (some "plugin-b" = none ∨ some "plugin-b" = some "default-site-plugin" ∨
        (∃ p, some "plugin-b" = some p ∧ some "plugin-a" = some p))) ∧
    (∀ res ws b,
      mergeTypes { name := "Foo", kind := .object, pluginExt := some "plugin-a" }
          { tc := { name := "Foo", kind := .object }, isComposer := true }
          (some "plugin-b") "typeBuilder" = .ok (res, ws, b) →
      b = true ∧
      ws = mergeWarnings (some "plugin-b")
          { name := "Foo", kind := .object, pluginExt := some "plugin-a" } ++
        deprecationReports res ∧
      (isSafeMerge (some "plugin-b") (some "plugin-a") = false →
        ∃ w, mergeWarnings (some "plugin-b")
            { name := "Foo", kind := .object, pluginExt := some "plugin-a" } = [w] ∧
          (∀ p, (some "plugin-b" : Option String) = some p → p.toList <:+: w.toList) ∧
          (truthyOwner (some "plugin-a") = true →
            ∀ o, (some "plugin-a" : Option String) = some o → o.toList <:+: w.toList))) ∧
    ((∃ r, mergeTypes { name := "Foo", kind := .object, pluginExt := some "plugin-a" }
        { tc := { name := "Foo", kind := .object }, isComposer := true }
        (some "plugin-b") "typeBuilder" = .ok r) ↔
      (∃ r, mergeTypes { name := "Foo", kind := .object, pluginExt := some "plugin-a" }
        { tc := { name := "Foo", kind := .object }, isComposer := true }
        none "typeBuilder" = .ok r)) :=
  mergeTypes_ownership_never_blocks
    { name := "Foo", kind := .object, pluginExt := some "plugin-a" }
    { tc := { name := "Foo", kind := .object }, isComposer := true }
    (some "plugin-b") "typeBuilder"

/-! ## C1: field merge rule and interface union -/

theorem lookupKV_map_value {β : Type} (l : List (String × β)) (g : β → β) (x : String) :
    lookupKV (l.map (fun p => (p.1, g p.2))) x = (lookupKV l x).map g := by
  induction l with
  | nil => simp [lookupKV_nil]
  | cons p l ih =>
    obtain ⟨k, v⟩ := p
    by_cases h : k = x <;> simp [lookupKV_cons, h, ih]

theorem lookupKV_eq_none {β : Type} (l : List (String × β)) (x : String)
    (h : x ∉ l.map Prod.fst) : lookupKV l x = none := by
  induction l with
  | nil => rfl
  | cons p l ih =>
    obtain ⟨k, v⟩ := p
    have hk : ¬(k = x) := fun he => h (by simp [he])
    rw [lookupKV_cons, if_neg hk]
    exact ih (fun hm => h (by simp; right; simpa using hm))

theorem extendFieldConfig_patchOfConfig (c cfg : FieldConfig) :
    extendFieldConfig c (patchOfConfig cfg) = cfg := rfl

theorem mergeFields_interfaces (tc : TypeComposer) (fields : List (String × FieldConfig)) :
    (mergeFields tc fields).interfaces = tc.interfaces := by
  induction fields generalizing tc with
  | nil => rfl
  | cons p fs ih =>
    unfold mergeFields at ih ⊢
    rw [List.foldl_cons]
    rw [ih]
    by_cases h : hasField tc p.1
    · rw [if_pos h]
      rfl
    · rw [if_neg h]
      unfold setFieldEntry
      rw [if_neg h]
      rfl

theorem mergeFields_cons (tc : TypeComposer) (f : String) (cfg : FieldConfig)
    (fs : List (String × FieldConfig)) :
    mergeFields tc ((f, cfg) :: fs) =
      mergeFields (if hasField tc f then extendField tc f (patchOfConfig cfg)
        else setFieldEntry tc f (mkFieldEntry cfg)) fs := by
  unfold mergeFields
  rw [List.foldl_cons]

theorem mergeFields_step_other (tc : TypeComposer) (f n : String) (cfg : FieldConfig)
    (hn : ¬(n = f)) :
    getFieldEntry (if hasField tc f then extendField tc f (patchOfConfig cfg)
      else setFieldEntry tc f (mkFieldEntry cfg)) n = getFieldEntry tc n := by
  by_cases hhas : hasField tc f
  · rw [if_pos hhas, getFieldEntry_extendField, if_neg hn]
  · rw [if_neg hhas, getFieldEntry_setFieldEntry, if_neg hn]

theorem mergeFields_lookup_keep (tc : TypeComposer) (fields : List (String × FieldConfig))
    (n : String) (hcfg : lookupKV fields n = none) :
    getFieldEntry (mergeFields tc fields) n = getFieldEntry tc n := by
  induction fields generalizing tc with
  | nil => rfl
  | cons p fs ih =>
    obtain ⟨f, cfg⟩ := p
    have hn : ¬(n = f) := by
      intro he
      rw [lookupKV_cons, if_pos he.symm] at hcfg
      exact Option.noConfusion hcfg
    have hcfg2 : lookupKV fs n = none := by
      rw [lookupKV_cons, if_neg (fun he => hn he.symm)] at hcfg
      exact hcfg
    rw [mergeFields_cons, ih _ hcfg2, mergeFields_step_other tc f n cfg hn]

theorem mergeFields_lookup_replace (tc : TypeComposer) (fields : List (String × FieldConfig))
    (n : String) (cfg : FieldConfig) (e : FieldEntry)
    (hnodup : (fields.map Prod.fst).Nodup)
    (hcfg : lookupKV fields n = some cfg) (hget : getFieldEntry tc n = some e) :
    getFieldEntry (mergeFields tc fields) n = some { e with config := cfg } := by
  induction fields generalizing tc e with
  | nil => exact Option.noConfusion hcfg
  | cons p fs ih =>
    obtain ⟨f, c⟩ := p
    have hcons : (f :: fs.map Prod.fst).Nodup := by simpa using hnodup
    have hnotin : f ∉ fs.map Prod.fst := (List.nodup_cons.mp hcons).1
    have hnd : (fs.map Prod.fst).Nodup := (List.nodup_cons.mp hcons).2
    rw [mergeFields_cons]
    by_cases hn : n = f
    · subst hn
      rw [lookupKV_cons, if_pos rfl] at hcfg
      injection hcfg with hcfg
      subst hcfg
      have hhas : hasField tc n := by
        unfold hasField
        rw [hget]
        rfl
      rw [if_pos hhas]
      have hstep : getFieldEntry (extendField tc n (patchOfConfig c)) n =
          some { e with config := c } := by
        rw [getFieldEntry_extendField, if_pos rfl, hget]
        simp [extendFieldConfig_patchOfConfig]
      rw [mergeFields_lookup_keep _ fs n (lookupKV_eq_none fs n hnotin), hstep]
    · have hcfg2 : lookupKV fs n = some cfg := by
        rw [lookupKV_cons, if_neg (fun he => hn he.symm)] at hcfg
        exact hcfg
      have hget2 : getFieldEntry (if hasField tc f then extendField tc f (patchOfConfig c)
          else setFieldEntry tc f (mkFieldEntry c)) n = some e := by
        rw [mergeFields_step_other tc f n c hn]
        exact hget
      exact ih _ _ hnd hcfg2 hget2

theorem mergeFields_lookup_new (tc : TypeComposer) (fields : List (String × FieldConfig))
    (n : String) (cfg : FieldConfig)
    (hnodup : (fields.map Prod.fst).Nodup)
    (hcfg : lookupKV fields n = some cfg) (hget : getFieldEntry tc n = none) :
    getFieldEntry (mergeFields tc fields) n = some (mkFieldEntry cfg) := by
  induction fields generalizing tc with
  | nil => exact Option.noConfusion hcfg
  | cons p fs ih =>
    obtain ⟨f, c⟩ := p
    have hcons : (f :: fs.map Prod.fst).Nodup := by simpa using hnodup
    have hnotin : f ∉ fs.map Prod.fst := (List.nodup_cons.mp hcons).1
    have hnd : (fs.map Prod.fst).Nodup := (List.nodup_cons.mp hcons).2
    rw [mergeFields_cons]
    by_cases hn : n = f
    · subst hn
      rw [lookupKV_cons, if_pos rfl] at hcfg
      injection hcfg with hcfg
      subst hcfg
      have hhas : ¬(hasField tc n = true) := by
        unfold hasField
        rw [hget]
        simp
      rw [if_neg hhas]
      have hstep : getFieldEntry (setFieldEntry tc n (mkFieldEntry c)) n =
          some (mkFieldEntry c) := by
        rw [getFieldEntry_setFieldEntry, if_pos rfl]
      rw [mergeFields_lookup_keep _ fs n (lookupKV_eq_none fs n hnotin), hstep]
    · have hcfg2 : lookupKV fs n = some cfg := by
        rw [lookupKV_cons, if_neg (fun he => hn he.symm)] at hcfg
        exact hcfg
      have hget2 : getFieldEntry (if hasField tc f then extendField tc f (patchOfConfig c)
          else setFieldEntry tc f (mkFieldEntry c)) n = none := by
        rw [mergeFields_step_other tc f n c hn]
        exact hget
      exact ih _ hnd hcfg2 hget2

theorem addInterface_fields (tc : TypeComposer) (i : String) :
    (addInterface tc i).fields = tc.fields := by
  unfold addInterface
  split <;> rfl

theorem addInterface_fold_fields (l : List String) (tc : TypeComposer) :
    (l.foldl addInterface tc).fields = tc.fields := by
  induction l generalizing tc with
  | nil => rfl
  | cons a l ih =>
    rw [List.foldl_cons, ih, addInterface_fields]

theorem addInterface_fold_mem (l : List String) (tc : TypeComposer) (i : String) :
    i ∈ (l.foldl addInterface tc).interfaces ↔ i ∈ tc.interfaces ∨ i ∈ l := by
  induction l generalizing tc with
  | nil => simp
  | cons a l ih =>
    rw [List.foldl_cons, ih]
    unfold addInterface
    by_cases h : a ∈ tc.interfaces
    · rw [if_pos h]
      constructor
      · rintro (hm | hm)
        · exact Or.inl hm
        · exact Or.inr (List.mem_cons_of_mem a hm)
      · rintro (hm | hm)
        · exact Or.inl hm
        · rcases List.mem_cons.mp hm with rfl | hm
          · exact Or.inl h
          · exact Or.inr hm
    · rw [if_neg h]
      simp only [List.mem_append, List.mem_cons, List.not_mem_nil, or_false, List.mem_singleton]
      tauto

theorem addInterface_fold_nodup (l : List String) (tc : TypeComposer)
    (h : tc.interfaces.Nodup) : (l.foldl addInterface tc).interfaces.Nodup := by
  induction l generalizing tc with
  | nil => exact h
  | cons a l ih =>
    rw [List.foldl_cons]
    apply ih
    unfold addInterface
    by_cases hm : a ∈ tc.interfaces
    · rw [if_pos hm]
      exact h
    · rw [if_neg hm]
      simpa [List.nodup_append] using ⟨h, hm⟩

theorem processDirective_ok_preserves (tc : TypeComposer) (d : Directive) (t1 : TypeComposer)
    (h : processDirective tc d = .ok t1) :
    t1.name = tc.name ∧ t1.kind = tc.kind ∧ t1.fields = tc.fields ∧
      t1.interfaces = tc.interfaces := by
  cases d with
  | infer ndr =>
    cases ndr <;> (injection h with h; subst h; exact ⟨rfl, rfl, rfl, rfl⟩)
  | dontInfer ndr =>
    cases ndr <;> (injection h with h; subst h; exact ⟨rfl, rfl, rfl, rfl⟩)
  | mimeTypes a =>
    injection h with h; subst h; exact ⟨rfl, rfl, rfl, rfl⟩
  | childOf a =>
    injection h with h; subst h; exact ⟨rfl, rfl, rfl, rfl⟩
  | other nm =>
    injection h with h; subst h; exact ⟨rfl, rfl, rfl, rfl⟩
  | nodeInterface =>
    unfold processDirective at h
    by_cases hk : tc.kind = .interface
    · rw [if_pos hk] at h
      by_cases hb : nodeInterfaceIdCheckFails tc = true
      · rw [if_pos hb] at h
        exact Except.noConfusion h
      · rw [if_neg hb] at h
        injection h with h
        subst h
        exact ⟨rfl, rfl, rfl, rfl⟩
    · rw [if_neg hk] at h
      injection h with h
      subst h
      exact ⟨rfl, rfl, rfl, rfl⟩

theorem dirFold_preserves (ds : List Directive) (tc tc2 : TypeComposer)
    (h : ds.foldlM processDirective tc = .ok tc2) :
    tc2.name = tc.name ∧ tc2.kind = tc.kind ∧ tc2.fields = tc.fields ∧
      tc2.interfaces = tc.interfaces := by
  induction ds generalizing tc with
  | nil =>
    injection h with h
    subst h
    exact ⟨rfl, rfl, rfl, rfl⟩
  | cons d ds ih =>
    rw [List.foldlM_cons] at h
    cases hstep : processDirective tc d with
    | error m =>
      rw [hstep] at h
      exact Except.noConfusion h
    | ok t1 =>
      rw [hstep] at h
      obtain ⟨h1, h2, h3, h4⟩ := processDirective_ok_preserves tc d t1 hstep
      obtain ⟨g1, g2, g3, g4⟩ := ih t1 h
      exact ⟨g1.trans h1, g2.trans h2, g3.trans h3, g4.trans h4⟩

theorem stampFieldEntry_config (cf : String) (p : Option String) (e : FieldEntry) :
    (stampFieldEntry cf p e).config = e.config := by
  unfold stampFieldEntry
  split <;> rfl

theorem stampAllFields_lookup (cf : String) (p : Option String) (tc : TypeComposer)
    (n : String) :
    (getFieldEntry (stampAllFields cf p tc) n).map (fun e => e.config) =
      (getFieldEntry tc n).map (fun e => e.config) := by
  unfold stampAllFields
  split
  · show (lookupKV (tc.fields.map fun q => (q.1, stampFieldEntry cf p q.2)) n).map
        (fun e => e.config) =
      (lookupKV tc.fields n).map (fun e => e.config)
    rw [lookupKV_map_value]
    rcases lookupKV tc.fields n with _ | e
    · rfl
    · show some (stampFieldEntry cf p e).config = some e.config
      rw [stampFieldEntry_config]
  · rfl

theorem stampAllFields_interfaces (cf : String) (p : Option String) (tc : TypeComposer) :
    (stampAllFields cf p tc).interfaces = tc.interfaces := by
  unfold stampAllFields
  split <;> rfl

theorem getFieldEntry_congr (a b : TypeComposer) (n : String) (h : a.fields = b.fields) :
    getFieldEntry a n = getFieldEntry b n := by
  unfold getFieldEntry
  rw [h]

theorem extendExtensions_fields (tc inc : TypeComposer) :
    (extendExtensions tc inc).fields = tc.fields := rfl

theorem extendExtensions_interfaces (tc inc : TypeComposer) :
    (extendExtensions tc inc).interfaces = tc.interfaces := rfl

theorem addInterface_fold_interfaces_eq (l : List String) (a b : TypeComposer)
    (hf : a.interfaces = b.interfaces) :
    (l.foldl addInterface a).interfaces = (l.foldl addInterface b).interfaces := by
  induction l generalizing a b with
  | nil => exact hf
  | cons x l ih =>
    rw [List.foldl_cons, List.foldl_cons]
    apply ih
    unfold addInterface
    rw [hf]
    split <;> simp [hf]

/-- On success, the final composer of `mergeTypes` has the field configs
and interfaces of `mergeCore` (extension stamping and directive
reprocessing change neither). -/
theorem mergeTypes_ok_result (tc : TypeComposer) (incoming : IncomingType)
    (plugin : Option String) (createdFrom : String) (res : TypeComposer) (ws : List String)
    (b : Bool) (hok : mergeTypes tc incoming plugin createdFrom = .ok (res, ws, b)) :
    (∀ n, (getFieldEntry res n).map (fun e => e.config) =
      (getFieldEntry (mergeCore tc incoming) n).map (fun e => e.config)) ∧
    res.interfaces = (mergeCore tc incoming).interfaces := by
  rw [mergeTypes_eq] at hok
  obtain ⟨r, hadd, hb⟩ := except_map_ok _ _ _ hok
  obtain ⟨a, rep⟩ := r
  have hres : res = a := congrArg (fun t => t.1) hb
  rw [addExtensions_eq] at hadd
  obtain ⟨t2, hproc, hpair⟩ := except_map_ok _ _ _ hadd
  have ha : a = stampAllFields createdFrom plugin t2 := congrArg Prod.fst hpair
  have ht2 : t2.fields = (mergeCore tc incoming).fields ∧
      t2.interfaces = (mergeCore tc incoming).interfaces := by
    by_cases hcf : createdFrom = "sdl"
    · rw [if_pos hcf] at hproc
      obtain ⟨_, _, hf, hi⟩ := dirFold_preserves _ _ _ hproc
      exact ⟨hf, hi⟩
    · rw [if_neg hcf] at hproc
      injection hproc with hproc
      rw [← hproc]
      exact ⟨rfl, rfl⟩
  constructor
  · intro n
    rw [hres, ha, stampAllFields_lookup]
    rw [getFieldEntry_congr t2 (mergeCore tc incoming) n ht2.1]
  · rw [hres, ha, stampAllFields_interfaces]
    exact ht2.2

theorem mergeCore_getFieldEntry (tc : TypeComposer) (incoming : IncomingType) (n : String)
    (hkind : incoming.tc.kind = .object ∨ incoming.tc.kind = .interface) :
    getFieldEntry (mergeCore tc incoming) n =
      getFieldEntry (mergeFields tc (getFieldConfigs incoming.tc)) n := by
  have hstep : (mergeFieldsStep tc incoming).fields =
      (mergeFields tc (getFieldConfigs incoming.tc)).fields := by
    unfold mergeFieldsStep
    rcases hkind with hk | hk
    · rw [if_pos hk, addInterface_fold_fields]
    · have hno : ¬(incoming.tc.kind = .object) := by rw [hk]; simp
      rw [if_neg hno, if_pos hk]
  have hcore : (mergeCore tc incoming).fields =
      (mergeFields tc (getFieldConfigs incoming.tc)).fields := by
    unfold mergeCore
    split
    · rw [extendExtensions_fields]
      exact hstep
    · exact hstep
  exact getFieldEntry_congr _ _ n hcore

theorem mergeCore_interfaces_object (tc : TypeComposer) (incoming : IncomingType)
    (hk : incoming.tc.kind = .object) :
    (mergeCore tc incoming).interfaces =
      (incoming.tc.interfaces.foldl addInterface
        (mergeFields tc (getFieldConfigs incoming.tc))).interfaces := by
  have hstep : (mergeFieldsStep tc incoming).interfaces =
      (incoming.tc.interfaces.foldl addInterface
        (mergeFields tc (getFieldConfigs incoming.tc))).interfaces := by
    unfold mergeFieldsStep
    rw [if_pos hk]
  unfold mergeCore
  split
  · rw [extendExtensions_interfaces]
    exact hstep
  · exact hstep

theorem mergeCore_interfaces_interface (tc : TypeComposer) (incoming : IncomingType)
    (hk : incoming.tc.kind = .interface) :
    (mergeCore tc incoming).interfaces = tc.interfaces := by
  have hno : ¬(incoming.tc.kind = .object) := by rw [hk]; simp
  have hstep : (mergeFieldsStep tc incoming).interfaces = tc.interfaces := by
    unfold mergeFieldsStep
    rw [if_neg hno, if_pos hk, mergeFields_interfaces]
  unfold mergeCore
  split
  · rw [extendExtensions_interfaces]
    exact hstep
  · exact hstep

/-- C1: merging an incoming object or interface definition into an
existing record: for each field name present in both, the merged field's
type, arguments and resolver are exactly the incoming field config; a
field present on only one side keeps its config unchanged; for object
incomings the interface lists are unioned without duplicates, and
interface incomings (which carry no interface list) leave the
existing interfaces unchanged. -/
theorem mergeTypes_field_merge_and_interface_union
    (tc : TypeComposer) (incoming : IncomingType) (plugin : Option String)
    (createdFrom : String) (res : TypeComposer) (ws : List String) (b : Bool)
    (hnodup : (incoming.tc.fields.map Prod.fst).Nodup)
    (hok : mergeTypes tc incoming plugin createdFrom = .ok (res, ws, b)) :
    ((incoming.tc.kind = .object ∨ incoming.tc.kind = .interface) →
      (∀ n cfg e, lookupKV (getFieldConfigs incoming.tc) n = some cfg →
        getFieldEntry tc n = some e →
        (getFieldEntry res n).map (fun x => x.config) = some cfg) ∧
      (∀ n cfg, lookupKV (getFieldConfigs incoming.tc) n = some cfg →
        getFieldEntry tc n = none →
        (getFieldEntry res n).map (fun x => x.config) = some cfg) ∧
      (∀ n, lookupKV (getFieldConfigs incoming.tc) n = none →
        (getFieldEntry res n).map (fun x => x.config) =
          (getFieldEntry tc n).map (fun x => x.config))) ∧
    (incoming.tc.kind = .object →
      (∀ i, i ∈ res.interfaces ↔ i ∈ tc.interfaces ∨ i ∈ incoming.tc.interfaces) ∧
      (tc.interfaces.Nodup → res.interfaces.Nodup)) ∧
    (incoming.tc.kind = .interface → res.interfaces = tc.interfaces) := by
  obtain ⟨hfields, hinterf⟩ :=
    mergeTypes_ok_result tc incoming plugin createdFrom res ws b hok
  have hnodup2 : ((getFieldConfigs incoming.tc).map Prod.fst).Nodup := by
    unfold getFieldConfigs
    rw [List.map_map]
    exact hnodup
  refine ⟨?_, ?_, ?_⟩
  · intro hkind
    refine ⟨?_, ?_, ?_⟩
    · intro n cfg e hcfg hget
      rw [hfields n, mergeCore_getFieldEntry tc incoming n hkind,
        mergeFields_lookup_replace tc _ n cfg e hnodup2 hcfg hget]
      rfl
    · intro n cfg hcfg hget
      rw [hfields n, mergeCore_getFieldEntry tc incoming n hkind,
        mergeFields_lookup_new tc _ n cfg hnodup2 hcfg hget]
      rfl
    · intro n hcfg
      rw [hfields n, mergeCore_getFieldEntry tc incoming n hkind,
        mergeFields_lookup_keep tc _ n hcfg]
  · intro hk
    have hi : res.interfaces =
        (incoming.tc.interfaces.foldl addInterface
          (mergeFields tc (getFieldConfigs incoming.tc))).interfaces :=
      hinterf.trans (mergeCore_interfaces_object tc incoming hk)
    constructor
    · intro i
      rw [hi, addInterface_fold_mem, mergeFields_interfaces]
    · intro hnd
      rw [hi]
      apply addInterface_fold_nodup
      rw [mergeFields_interfaces]
      exact hnd
  · intro hk
    exact hinterf.trans (mergeCore_interfaces_interface tc incoming hk)

/-- Existing record for the C1 witness: `Foo` with fields `a: Int`
(with a resolver) and `b: String`, implementing `I1`. -/
def mergeWitnessExisting : TypeComposer :=
  { name := "Foo", kind := .object,
    fields := [("a", mkFieldEntry { type := "Int", resolve := some (.fn 1) }),
               ("b", mkFieldEntry { type := "String" })],
    interfaces := ["I1"] }

/-- Incoming definition for the C1 witness: `Foo` with fields
`a: Boolean` (new resolver) and `c: Float`, implementing `I1` and `I2`. -/
def mergeWitnessIncomingTc : TypeComposer :=
  { name := "Foo", kind := .object,
    fields := [("a", mkFieldEntry { type := "Boolean", resolve := some (.fn 5) }),
               ("c", mkFieldEntry { type := "Float" })],
    interfaces := ["I1", "I2"] }

def mergeWitnessIncoming : IncomingType := { tc := mergeWitnessIncomingTc, isComposer := true }

def mergeWitnessResult : TypeComposer :=
  stampAllFields "typeBuilder" none
    ({ mergeCore mergeWitnessExisting mergeWitnessIncoming with
        createdFrom := some "typeBuilder", pluginExt := none })

/-- Witness for C1 at concrete inputs: the shared field `a` takes the
incoming type/args/resolver, the one-sided fields `b` and `c` are kept,
and the interfaces are the duplicate-free union `I1, I2`. -/
theorem mergeTypes_field_merge_and_interface_union_witness :
    mergeTypes mergeWitnessExisting mergeWitnessIncoming none "typeBuilder" =
      .ok (mergeWitnessResult, [], true) ∧
    ((getFieldEntry mergeWitnessResult "a").map (fun x => x.config) =
      some { type := "Boolean", args := [], resolve := some (.fn 5) }) ∧
    ((getFieldEntry mergeWitnessResult "c").map (fun x => x.config) =
      some { type := "Float", args := [], resolve := none }) ∧
    ((getFieldEntry mergeWitnessResult "b").map (fun x => x.config) =
      some { type := "String", args := [], resolve := none }) ∧
    (∀ i, i ∈ mergeWitnessResult.interfaces ↔
      i ∈ mergeWitnessExisting.interfaces ∨ i ∈ mergeWitnessIncoming.tc.interfaces) ∧
    mergeWitnessResult.interfaces.Nodup := by
  have h := mergeTypes_field_merge_and_interface_union mergeWitnessExisting
    mergeWitnessIncoming none "typeBuilder" mergeWitnessResult [] true (by decide) (by rfl)
  refine ⟨by rfl, ?_, ?_, ?_, (h.2.1 rfl).1, (h.2.1 rfl).2 (by decide)⟩
  · exact (h.1 (Or.inl rfl)).1 "a" { type := "Boolean", args := [], resolve := some (.fn 5) }
      (mkFieldEntry { type := "Int", resolve := some (.fn 1) }) (by rfl) (by rfl)
  · exact (h.1 (Or.inl rfl)).2.1 "c" { type := "Float", args := [], resolve := none }
      (by rfl) (by rfl)
  · exact ((h.1 (Or.inl rfl)).2.2 "b" (by rfl)).trans (by rfl)

/-! ## C3: implicit convenience children fields -/

theorem implicitChildrenStep_ok (reg : List TypeComposer) (si : Option Bool) (pn : String)
    (acc : TypeComposer × List String) (p : String × List NodeRec)
    (r : TypeComposer × List String) (h : implicitChildrenStep reg si pn acc p = .ok r) :
    r.1 = setFieldEntry acc.1 (generatedChildField p).1 (mkFieldEntry (generatedChildField p).2) := by
  unfold implicitChildrenStep at h
  cases hw : implicitChildWarning reg si pn p.1 (maxChildCount p.2) with
  | error m =>
    rw [hw] at h
    exact Except.noConfusion h
  | ok delta =>
    rw [hw] at h
    injection h with h
    rw [← h]

theorem implicitFold_preserves (reg : List TypeComposer) (si : Option Bool) (pn : String)
    (l : List (String × List NodeRec)) (acc r : TypeComposer × List String) (x : String)
    (h : l.foldlM (implicitChildrenStep reg si pn) acc = .ok r)
    (hx : x ∉ l.map (fun p => (generatedChildField p).1)) :
    getFieldEntry r.1 x = getFieldEntry acc.1 x := by
  induction l generalizing acc with
  | nil =>
    injection h with h
    rw [← h]
  | cons q l ih =>
    rw [List.foldlM_cons] at h
    cases hstep : implicitChildrenStep reg si pn acc q with
    | error m =>
      rw [hstep] at h
      exact Except.noConfusion h
    | ok acc1 =>
      rw [hstep] at h
      have hq : ¬(x = (generatedChildField q).1) := fun he => hx (by simp [he])
      have hacc1 := implicitChildrenStep_ok reg si pn acc q acc1 hstep
      have hrest := ih acc1 h (fun hm => hx (by simp; right; simpa using hm))
      rw [hrest, hacc1, getFieldEntry_setFieldEntry, if_neg hq]

theorem implicitFold_mem (reg : List TypeComposer) (si : Option Bool) (pn : String)
    (l : List (String × List NodeRec)) (acc r : TypeComposer × List String)
    (h : l.foldlM (implicitChildrenStep reg si pn) acc = .ok r)
    (hnd : (l.map (fun p => (generatedChildField p).1)).Nodup) :
    ∀ p ∈ l, getFieldEntry r.1 (generatedChildField p).1 =
      some (mkFieldEntry (generatedChildField p).2) := by
  induction l generalizing acc with
  | nil => intro p hp; simp at hp
  | cons q l ih =>
    intro p hp
    rw [List.foldlM_cons] at h
    cases hstep : implicitChildrenStep reg si pn acc q with
    | error m =>
      rw [hstep] at h
      exact Except.noConfusion h
    | ok acc1 =>
      rw [hstep] at h
      have hnd2 : ((generatedChildField q).1 ::
          l.map (fun p => (generatedChildField p).1)).Nodup := by
        simpa using hnd
      have hcons := List.nodup_cons.mp hnd2
      rcases List.mem_cons.mp hp with rfl | hp2
      · have hacc1 := implicitChildrenStep_ok reg si pn acc p acc1 hstep
        have hpres := implicitFold_preserves reg si pn l acc1 r
          (generatedChildField p).1 h hcons.1
        rw [hpres, hacc1, getFieldEntry_setFieldEntry, if_pos rfl]
      · exact ih acc1 h hcons.2 p hp2

/-- C3: for a Node-capable parent type, for every child type observed
among the children of the parent instances, the processing adds a plural
(list-returning) children field when the maximum number of children of
that type under a single parent instance exceeds 1, and a singular
(one-or-null) child field when that maximum is exactly 1; the choice
depends only on the per-type maximum over the whole distribution of
parent instances. -/
theorem implicit_children_field_plural_iff_max_exceeds_one
    (store : List NodeRec) (reg : List TypeComposer) (tc tc2 : TypeComposer)
    (ws : List String)
    (hok : addImplicitConvenienceChildrenFields store reg tc = .ok (tc2, ws))
    (hnd : ((groupChildNodesByType store (getNodesByType store tc.name)).map
      (fun p => (generatedChildField p).1)).Nodup) :
    ∀ C children,
      (C, children) ∈ groupChildNodesByType store (getNodesByType store tc.name) →
      (maxChildCount children > 1 →
        getFieldEntry tc2 (convenienceChildrenFieldName C) =
          some (mkFieldEntry (createChildrenField C).2)) ∧
      (maxChildCount children = 1 →
        getFieldEntry tc2 (convenienceChildFieldName C) =
          some (mkFieldEntry (createChildField C).2)) := by
  intro C children hmem
  have hfield := implicitFold_mem reg tc.infer tc.name _ (tc, []) (tc2, ws) hok hnd
    (C, children) hmem
  constructor
  · intro hgt
    have hgen : generatedChildField (C, children) = createChildrenField C := by
      unfold generatedChildField
      rw [if_pos hgt]
    rw [hgen] at hfield
    exact hfield
  · intro heq
    have hgen : generatedChildField (C, children) = createChildField C := by
      unfold generatedChildField
      rw [if_neg (by rw [heq]; simp)]
    rw [hgen] at hfield
    exact hfield

/-- Parent type for the C3 witness. -/
def childrenWitnessParent : TypeComposer := { name := "P", kind := .object, interfaces := ["Node"] }

/-- Store for the plural case of the C3 witness: three `P` instances
with 0, 1 and 2 children of type `C`. -/
def childrenWitnessStore : List NodeRec :=
  [{ id := "p0", internalType := some "P", children := [] },
   { id := "p1", internalType := some "P", children := ["c1"] },
   { id := "p2", internalType := some "P", children := ["c2", "c3"] },
   { id := "c1", internalType := some "C", parent := some "p1" },
   { id := "c2", internalType := some "C", parent := some "p2" },
   { id := "c3", internalType := some "C", parent := some "p2" }]

/-- Store for the singular case of the C3 witness: every `P` instance
has at most one `C` child. -/
def childrenWitnessStoreSingular : List NodeRec :=
  [{ id := "p0", internalType := some "P", children := [] },
   { id := "p1", internalType := some "P", children := ["c1"] },
   { id := "p2", internalType := some "P", children := ["c2"] },
   { id := "c1", internalType := some "C", parent := some "p1" },
   { id := "c2", internalType := some "C", parent := some "p2" }]

def childrenWitnessResultPlural : TypeComposer :=
  setFieldEntry childrenWitnessParent (createChildrenField "C").1
    (mkFieldEntry (createChildrenField "C").2)

def childrenWitnessResultSingular : TypeComposer :=
  setFieldEntry childrenWitnessParent (createChildField "C").1
    (mkFieldEntry (createChildField "C").2)

/-- Witness for C3: with parent instances having 0, 1 and 2 `C`-children
the generated field is the plural `childrenC`; when every instance has
at most one `C` child it is the singular `childC`. -/
theorem implicit_children_field_plural_iff_max_exceeds_one_witness :
    (getFieldEntry childrenWitnessResultPlural (convenienceChildrenFieldName "C") =
      some (mkFieldEntry (createChildrenField "C").2)) ∧
    (getFieldEntry childrenWitnessResultSingular (convenienceChildFieldName "C") =
      some (mkFieldEntry (createChildField "C").2)) := by
  constructor
  · exact ((implicit_children_field_plural_iff_max_exceeds_one childrenWitnessStore []
      childrenWitnessParent childrenWitnessResultPlural [] (by rfl) (by decide))
      "C" (childrenWitnessStore.filter (fun n => n.internalType == some "C"))
      (by decide)).1 (by decide)
  · exact ((implicit_children_field_plural_iff_max_exceeds_one childrenWitnessStoreSingular []
      childrenWitnessParent childrenWitnessResultSingular [] (by rfl) (by decide))
      "C" (childrenWitnessStoreSingular.filter (fun n => n.internalType == some "C"))
      (by decide)).2 (by decide)

/-! ## createResolvers override acceptance -/

theorem modifyField_createdFrom (tc : TypeComposer) (f : String) (g : FieldEntry → FieldEntry) :
    (modifyField tc f g).createdFrom = tc.createdFrom := rfl

theorem extendField_createdFrom (tc : TypeComposer) (f : String) (p : FieldConfigPatch) :
    (extendField tc f p).createdFrom = tc.createdFrom := rfl

theorem applyAcceptedOverride_lookup (tc : TypeComposer) (fieldName : String)
    (fieldConfig : OverrideConfig) (e : FieldEntry)
    (hf : getFieldEntry tc fieldName = some e) (x : String) :
    getFieldEntry (applyAcceptedOverride tc fieldName fieldConfig e.config) x =
      if x = fieldName then some (overriddenEntry tc fieldConfig e)
      else getFieldEntry tc x := by
  rcases hres : fieldConfig.resolve with _ | fnId <;>
    by_cases h3 : tc.createdFrom == some "thirdPartySchema" <;>
      simp [applyAcceptedOverride, overriddenEntry, hres, h3,
        extendField_createdFrom, modifyField_createdFrom,
        getFieldEntry_modifyField, getFieldEntry_extendField, hf] <;>
      by_cases hx : x = fieldName <;> simp [hx, hf]

/-- C4: a `createResolvers` override on an existing field is applied iff
it gives no return type, or a type equal to the existing one modulo
non-null wrappers, or the target type came from a third-party schema.
A rejected override leaves the composer completely unchanged and emits
exactly the type warning; an accepted override rewrites only the
targeted field, and when it carries a resolver, the resolver of the
resulting field is the new one wrapped around the prior resolver (or
the default field resolver) and the field is marked `needsResolve`. -/
theorem createResolvers_override_accept_iff (tc : TypeComposer)
    (typeName fieldName : String) (fieldConfig : OverrideConfig) (e : FieldEntry)
    (hf : getFieldEntry tc fieldName = some e) :
    (overrideAcceptCond tc fieldConfig e.config.type = true ↔
      fieldConfig.type = none ∨
      fieldConfig.type.map (fun t => stripNonNull (stringifyTypeSpec t)) =
        some (stripNonNull e.config.type) ∨
      tc.createdFrom = some "thirdPartySchema") ∧
    (overrideAcceptCond tc fieldConfig e.config.type = true →
      applyCreateResolverToField tc typeName fieldName fieldConfig =
        (applyAcceptedOverride tc fieldName fieldConfig e.config, []) ∧
      (∀ x, getFieldEntry (applyCreateResolverToField tc typeName fieldName fieldConfig).1 x =
        if x = fieldName then some (overriddenEntry tc fieldConfig e)
        else getFieldEntry tc x) ∧
      (∀ fnId, fieldConfig.resolve = some fnId →
        (overriddenEntry tc fieldConfig e).config.resolve =
          some (.wrapCreateResolvers fnId (e.config.resolve.getD .defaultFieldResolver)) ∧
        (overriddenEntry tc fieldConfig e).needsResolve = true)) ∧
    (overrideAcceptCond tc fieldConfig e.config.type = false →
      ∃ ftn, fieldConfig.type.map stringifyTypeSpec = some ftn ∧
        applyCreateResolverToField tc typeName fieldName fieldConfig =
          (tc, [createResolversTypeWarning typeName fieldName ftn e.config.type])) := by
  refine ⟨?_, ?_, ?_⟩
  · rcases htype : fieldConfig.type with _ | t <;> simp [overrideAcceptCond, htype]
  · intro hacc
    have heq : applyCreateResolverToField tc typeName fieldName fieldConfig =
        (applyAcceptedOverride tc fieldName fieldConfig e.config, []) := by
      simp only [applyCreateResolverToField, hf]
      rw [if_pos hacc]
    refine ⟨heq, ?_, ?_⟩
    · intro x
      rw [heq]
      exact applyAcceptedOverride_lookup tc fieldName fieldConfig e hf x
    · intro fnId hres
      constructor
      · simp [overriddenEntry, extendFieldConfig, hres]
      · simp [overriddenEntry, hres]
  · intro hrej
    rcases htype : fieldConfig.type with _ | t
    · exfalso
      simp [overrideAcceptCond, htype] at hrej
    · refine ⟨stringifyTypeSpec t, by simp [htype], ?_⟩
      simp only [applyCreateResolverToField, hf]
      rw [if_neg (by simp [hrej])]
      simp [htype]

def c4WitnessConfig : FieldConfig := { type := "Int!", args := [], resolve := none }

def c4WitnessTc : TypeComposer :=
  { name := "Foo", kind := .object, fields := [("bar", mkFieldEntry c4WitnessConfig)] }

def c4AcceptConfig : OverrideConfig := { type := some (.named "Int"), resolve := some 7 }

def c4RejectConfig : OverrideConfig := { type := some (.named "String"), resolve := some 7 }

/-- Witness for C4: on a field `Foo.bar : Int!`, an override typed `Int`
with a resolver is accepted (the resolver wrapped over the default field
resolver, `needsResolve` set), while one typed `String` is rejected with
the type warning and the composer is returned unchanged. -/
theorem createResolvers_override_accept_iff_witness :
    (getFieldEntry (applyCreateResolverToField c4WitnessTc "Foo" "bar" c4AcceptConfig).1 "bar" =
      some (overriddenEntry c4WitnessTc c4AcceptConfig (mkFieldEntry c4WitnessConfig)) ∧
     (overriddenEntry c4WitnessTc c4AcceptConfig (mkFieldEntry c4WitnessConfig)).config.resolve =
      some (.wrapCreateResolvers 7 .defaultFieldResolver) ∧
     (overriddenEntry c4WitnessTc c4AcceptConfig (mkFieldEntry c4WitnessConfig)).needsResolve =
      true) ∧
    applyCreateResolverToField c4WitnessTc "Foo" "bar" c4RejectConfig =
      (c4WitnessTc, [createResolversTypeWarning "Foo" "bar" "String" "Int!"]) := by
  have hf : getFieldEntry c4WitnessTc "bar" = some (mkFieldEntry c4WitnessConfig) := by rfl
  have h1 := createResolvers_override_accept_iff c4WitnessTc "Foo" "bar" c4AcceptConfig
    (mkFieldEntry c4WitnessConfig) hf
  have h2 := createResolvers_override_accept_iff c4WitnessTc "Foo" "bar" c4RejectConfig
    (mkFieldEntry c4WitnessConfig) hf
  have hstrAcc : c4AcceptConfig.type.map stringifyTypeSpec = some "Int" := by
    simp [c4AcceptConfig, stringifyTypeSpec]
  have hstrRej : c4RejectConfig.type.map stringifyTypeSpec = some "String" := by
    simp [c4RejectConfig, stringifyTypeSpec]
  have hacc : overrideAcceptCond c4WitnessTc c4AcceptConfig
      (mkFieldEntry c4WitnessConfig).config.type = true := by
    unfold overrideAcceptCond
    rw [hstrAcc]
    decide
  have hrej : overrideAcceptCond c4WitnessTc c4RejectConfig
      (mkFieldEntry c4WitnessConfig).config.type = false := by
    unfold overrideAcceptCond
    rw [hstrRej]
    decide
  refine ⟨⟨?_, ?_, ?_⟩, ?_⟩
  · have hb := (h1.2.1 hacc).2.1 "bar"
    simpa using hb
  · exact ((h1.2.1 hacc).2.2 7 rfl).1
  · exact ((h1.2.1 hacc).2.2 7 rfl).2
  · rcases h2.2.2 hrej with ⟨ftn, hftn, heq⟩
    rw [hstrRej] at hftn
    have hftn2 : ftn = "String" := (Option.some.inj hftn).symm
    rw [hftn2] at heq
    exact heq

/-! ## Third-party schema integration lemmas -/

theorem lookupKV_mem_pair {β : Type} (l : List (String × β)) (x : String) (v : β)
    (h : lookupKV l x = some v) : (x, v) ∈ l := by
  unfold lookupKV at h
  rcases hfind : l.find? (fun p => (p.1 = x : Bool)) with _ | p
  · rw [hfind] at h; simp at h
  · rw [hfind] at h
    simp at h
    have hp1 : p.1 = x := by
      have := List.find?_some hfind
      simpa using this
    have hmem := List.mem_of_find?_eq_some hfind
    have hpair : (x, v) = p := by
      obtain ⟨k, w⟩ := p
      simp at hp1 h
      rw [hp1, h]
    rw [hpair]
    exact hmem

theorem lookupKV_mem_keys {β : Type} (l : List (String × β)) (x : String) (v : β)
    (h : lookupKV l x = some v) : x ∈ l.map Prod.fst :=
  List.mem_map.mpr ⟨(x, v), lookupKV_mem_pair l x v h, rfl⟩

theorem lookupKV_isSome_of_mem {β : Type} (l : List (String × β)) (x : String)
    (h : x ∈ l.map Prod.fst) : (lookupKV l x).isSome = true := by
  induction l with
  | nil => simp at h
  | cons p l ih =>
    obtain ⟨k, v⟩ := p
    by_cases hp : k = x
    · simp [lookupKV_cons, hp]
    · rw [lookupKV_cons, if_neg hp]
      apply ih
      rcases List.mem_map.mp h with ⟨q, hq, hqx⟩
      rcases List.mem_cons.mp hq with heq | hmem
      · exact absurd (by rw [heq] at hqx; simpa using hqx) hp
      · exact List.mem_map.mpr ⟨q, hmem, hqx⟩

theorem foldl_name_invariant {α : Type} (g : TypeComposer → α → TypeComposer)
    (hg : ∀ tc a, (g tc a).name = tc.name) (l : List α) (tc : TypeComposer) :
    (l.foldl g tc).name = tc.name := by
  induction l generalizing tc with
  | nil => rfl
  | cons a l ih => rw [List.foldl_cons, ih, hg]

theorem resetFieldStep_name (tc : TypeComposer) (f : String) :
    (resetFieldStep tc f).name = tc.name := by
  unfold resetFieldStep
  cases h : getFieldEntry tc f with
  | none => rfl
  | some e =>
    by_cases h1 : e.createdFrom = some "createResolvers"
    · simp [h1, removeField]
    · cases h2 : e.originalFieldConfig <;> simp [h1, h2, removeField, appendField]

theorem reset_name (tc : TypeComposer) :
    (resetOverriddenThirdPartyTypeFields tc).name = tc.name :=
  foldl_name_invariant _ resetFieldStep_name _ tc

theorem rewriteQueryRefStep_name (qn : String) (tc : TypeComposer) (f : String) :
    (rewriteQueryRefStep qn tc f).name = tc.name := by
  unfold rewriteQueryRefStep
  cases h : getFieldEntry tc f with
  | none => rfl
  | some e =>
    by_cases h1 : stripWrapping e.config.type = qn <;> simp [h1, extendField, modifyField]

theorem processThirdParty_name (qn : String) (tc : TypeComposer) :
    (processThirdPartyTypeFields qn tc).name = tc.name := by
  show (((resetOverriddenThirdPartyTypeFields tc).fields.map Prod.fst).foldl
    (rewriteQueryRefStep qn) (resetOverriddenThirdPartyTypeFields tc)).name = tc.name
  rw [foldl_name_invariant _ (rewriteQueryRefStep_name qn), reset_name]

theorem importedThirdPartyType_name (qn : String) (t : TypeComposer) :
    (importedThirdPartyType qn t).name = t.name := by
  simp only [importedThirdPartyType]
  by_cases h : t.kind = .object ∨ t.kind = .interface <;>
    simp [h, processThirdParty_name]

theorem getType_some_name (reg : List TypeComposer) (n : String) (t : TypeComposer)
    (h : getType reg n = some t) : t.name = n := by
  unfold getType at h
  have := List.find?_some h
  simpa using this

theorem setFieldEntry_name (tc : TypeComposer) (f : String) (e : FieldEntry) :
    (setFieldEntry tc f e).name = tc.name := by
  unfold setFieldEntry
  by_cases h : hasField tc f <;> simp [h, modifyField, appendField]

theorem replaceFirstList_at_head (pat repl suf : List Char) (hpat : pat ≠ []) :
    replaceFirstList pat repl (pat ++ suf) = repl ++ suf := by
  rcases pat with _ | ⟨p, ps⟩
  · exact absurd rfl hpat
  · show replaceFirstList (p :: ps) repl (p :: (ps ++ suf)) = repl ++ suf
    unfold replaceFirstList
    rw [if_pos]
    · simp [List.drop_left]
    · rw [List.isPrefixOf_iff_prefix]
      exact ⟨suf, by simp⟩

theorem replaceFirstList_wrapped (pat repl suf pre : List Char)
    (hpre : ∀ c ∈ pre, c = '[')
    (hpat : pat ≠ []) (hhead : ∀ c ∈ pat, ¬ c = '[') :
    replaceFirstList pat repl (pre ++ (pat ++ suf)) = pre ++ (repl ++ suf) := by
  induction pre with
  | nil => simpa using replaceFirstList_at_head pat repl suf hpat
  | cons c cs ih =>
    have hc : c = '[' := hpre c (by simp)
    have hcs : ∀ d ∈ cs, d = '[' := fun d hd => hpre d (by simp [hd])
    show replaceFirstList pat repl (c :: (cs ++ (pat ++ suf))) =
      c :: (cs ++ (repl ++ suf))
    unfold replaceFirstList
    rw [if_neg]
    · rw [ih hcs]
    · intro hpref
      rw [List.isPrefixOf_iff_prefix] at hpref
      rcases hp : pat with _ | ⟨p, ps⟩
      · exact hpat hp
      · rw [hp] at hpref
        rcases hpref with ⟨t, ht⟩
        have hpc : p = c := by
          simp at ht
          exact ht.1
        exact hhead p (by simp [hp]) (by rw [hpc, hc])

theorem replaceFirst_wrapped (qn repl s : String) (pre suf : List Char)
    (hs : s.toList = pre ++ (qn.toList ++ suf))
    (hpre : ∀ c ∈ pre, c = '[')
    (hq : qn.toList ≠ []) (hhead : ∀ c ∈ qn.toList, ¬ c = '[') :
    (replaceFirst qn repl s).toList = pre ++ (repl.toList ++ suf) := by
  show (replaceFirstList qn.toList repl.toList s.toList).asString.toList = _
  rw [hs, replaceFirstList_wrapped qn.toList repl.toList suf pre hpre hq hhead]
  rfl

theorem filter_wrapper_pre (pre : List Char) (hpre : ∀ c ∈ pre, c = '[') :
    pre.filter (fun c => !(c == '[' || c == ']' || c == '!')) = [] := by
  induction pre with
  | nil => rfl
  | cons c cs ih =>
    have hc : c = '[' := hpre c (by simp)
    rw [List.filter_cons]
    have hcf : (fun c => !(c == '[' || c == ']' || c == '!')) c = false := by
      rw [hc]; rfl
    simp only [hcf, Bool.false_eq_true, if_false]
    exact ih (fun d hd => hpre d (by simp [hd]))

theorem filter_wrapper_suf (suf : List Char) (hsuf : ∀ c ∈ suf, c = ']' ∨ c = '!') :
    suf.filter (fun c => !(c == '[' || c == ']' || c == '!')) = [] := by
  induction suf with
  | nil => rfl
  | cons c cs ih =>
    have hcf : (fun c => !(c == '[' || c == ']' || c == '!')) c = false := by
      rcases hsuf c (by simp) with hc | hc <;> rw [hc] <;> rfl
    rw [List.filter_cons]
    simp only [hcf, Bool.false_eq_true, if_false]
    exact ih (fun d hd => hsuf d (by simp [hd]))

theorem filter_wrapper_keep (l : List Char)
    (h : ∀ c ∈ l, ¬ c = '[' ∧ ¬ c = ']' ∧ ¬ c = '!') :
    l.filter (fun c => !(c == '[' || c == ']' || c == '!')) = l := by
  induction l with
  | nil => rfl
  | cons c cs ih =>
    obtain ⟨h1, h2, h3⟩ := h c (by simp)
    rw [List.filter_cons]
    have hcf : (fun c => !(c == '[' || c == ']' || c == '!')) c = true := by
      simp [h1, h2, h3]
    simp only [hcf, if_true]
    rw [ih (fun d hd => h d (by simp [hd]))]

theorem stripWrapping_wrapped (qn s : String) (pre suf : List Char)
    (hs : s.toList = pre ++ (qn.toList ++ suf))
    (hpre : ∀ c ∈ pre, c = '[')
    (hsuf : ∀ c ∈ suf, c = ']' ∨ c = '!')
    (hclean : ∀ c ∈ qn.toList, ¬ c = '[' ∧ ¬ c = ']' ∧ ¬ c = '!') :
    stripWrapping s = qn := by
  unfold stripWrapping
  rw [hs, List.filter_append, List.filter_append,
    filter_wrapper_pre pre hpre, filter_wrapper_suf suf hsuf,
    filter_wrapper_keep qn.toList hclean]
  show ((qn.toList ++ []) : List Char).asString = qn
  rw [List.append_nil]
  rfl

theorem importStep_getType_ne (qn : String) (st : SchemaComposerState) (t : TypeComposer)
    (n : String) (hn : t.name ≠ n) :
    getType (importThirdPartyTypeStep qn st t).types n = getType st.types n := by
  unfold importThirdPartyTypeStep
  by_cases h : shouldImportThirdPartyType qn t = true
  · simp only [h, if_true]
    show getType (setType st.types (importedThirdPartyType qn t)) n = _
    rw [getType_setType, if_neg]
    rw [importedThirdPartyType_name]
    exact hn
  · simp [h]

theorem importFold_getType_not_mem (qn : String) (l : List TypeComposer)
    (st : SchemaComposerState) (n : String) (hn : ∀ t ∈ l, t.name ≠ n) :
    getType (l.foldl (importThirdPartyTypeStep qn) st).types n = getType st.types n := by
  induction l generalizing st with
  | nil => rfl
  | cons u l ih =>
    rw [List.foldl_cons, ih _ (fun t ht => hn t (by simp [ht])),
      importStep_getType_ne qn st u n (hn u (by simp))]

theorem importFold_getType_mem (qn : String) (l : List TypeComposer)
    (st : SchemaComposerState) (t : TypeComposer) (ht : t ∈ l)
    (hnd : (l.map (fun u => u.name)).Nodup) :
    getType (l.foldl (importThirdPartyTypeStep qn) st).types t.name =
      if shouldImportThirdPartyType qn t then some (importedThirdPartyType qn t)
      else getType st.types t.name := by
  induction l generalizing st with
  | nil => cases ht
  | cons u l ih =>
    have hnd2 : (u.name :: l.map (fun v => v.name)).Nodup := by simpa using hnd
    have hcons := List.nodup_cons.mp hnd2
    rcases List.mem_cons.mp ht with heq | hmem
    · subst heq
      rw [List.foldl_cons]
      have hrest : ∀ v ∈ l, v.name ≠ t.name := by
        intro v hv he
        have hm : v.name ∈ l.map (fun v => v.name) := List.mem_map.mpr ⟨v, hv, rfl⟩
        rw [he] at hm
        exact hcons.1 hm
      rw [importFold_getType_not_mem qn l _ t.name hrest]
      unfold importThirdPartyTypeStep
      by_cases h : shouldImportThirdPartyType qn t = true
      · simp only [h, if_true]
        show getType (setType st.types (importedThirdPartyType qn t)) t.name = _
        rw [getType_setType, if_pos (importedThirdPartyType_name qn t)]
      · simp [h]
    · have hune : u.name ≠ t.name := by
        intro he
        have hm : t.name ∈ l.map (fun v => v.name) := List.mem_map.mpr ⟨t, hmem, rfl⟩
        rw [← he] at hm
        exact hcons.1 hm
      rw [List.foldl_cons, ih _ hmem hcons.2,
        importStep_getType_ne qn st u t.name hune]

theorem setFold_name (fields : List (String × FieldEntry)) (q : TypeComposer) :
    (fields.foldl (fun q p => setFieldEntry q p.1 p.2) q).name = q.name :=
  foldl_name_invariant _ (fun q p => setFieldEntry_name q p.1 p.2) fields q

theorem addQueryFields_getType_query (st : SchemaComposerState)
    (fields : List (String × FieldEntry)) :
    getType (addQueryFields st fields).types "Query" =
      some (fields.foldl (fun q p => setFieldEntry q p.1 p.2)
        ((getType st.types "Query").getD { name := "Query", kind := .object })) := by
  have hname : (fields.foldl (fun q p => setFieldEntry q p.1 p.2)
      ((getType st.types "Query").getD { name := "Query", kind := .object })).name =
        "Query" := by
    rw [setFold_name]
    cases h : getType st.types "Query" with
    | none => rfl
    | some q => simpa using getType_some_name st.types "Query" q h
  show getType (setType st.types (fields.foldl (fun q p => setFieldEntry q p.1 p.2)
    ((getType st.types "Query").getD { name := "Query", kind := .object }))) "Query" = _
  rw [getType_setType, if_pos hname]

theorem addThirdPartySchemas_singleton (st : SchemaComposerState)
    (schema : ThirdPartySchema) :
    addThirdPartySchemas st [schema] =
      schema.typeMap.foldl (importThirdPartyTypeStep schema.queryType.name)
        (addQueryFields st
          (processThirdPartyTypeFields schema.queryType.name schema.queryType).fields) := rfl

theorem resetFieldStep_id (tc : TypeComposer) (f : String)
    (hfresh : ∀ p ∈ tc.fields, ¬ p.2.createdFrom = some "createResolvers" ∧
      p.2.originalFieldConfig = none) :
    resetFieldStep tc f = tc := by
  cases h : getFieldEntry tc f with
  | none => simp [resetFieldStep, h]
  | some e =>
    have h2 : lookupKV tc.fields f = some e := h
    obtain ⟨hcr, hofc⟩ := hfresh (f, e) (lookupKV_mem_pair tc.fields f e h2)
    have hcr2 : ¬ e.createdFrom = some "createResolvers" := hcr
    have hofc2 : e.originalFieldConfig = none := hofc
    simp only [resetFieldStep, h]
    rw [if_neg hcr2, hofc2]

theorem resetOverridden_id (tc : TypeComposer)
    (hfresh : ∀ p ∈ tc.fields, ¬ p.2.createdFrom = some "createResolvers" ∧
      p.2.originalFieldConfig = none) :
    resetOverriddenThirdPartyTypeFields tc = tc := by
  unfold resetOverriddenThirdPartyTypeFields
  have hgen : ∀ names : List String, names.foldl resetFieldStep tc = tc := by
    intro names
    induction names with
    | nil => rfl
    | cons f fs ih => rw [List.foldl_cons, resetFieldStep_id tc f hfresh, ih]
  exact hgen _

/-- The entry the query-reference rewrite leaves at a field: the type
string has the first occurrence of the foreign query type name replaced
by `Query` when the wrapper-stripped type is exactly that name. -/
def rewrittenEntry (qn : String) (e : FieldEntry) : FieldEntry :=
  if stripWrapping e.config.type = qn then
    let p : FieldConfigPatch := { type := some (replaceFirst qn "Query" e.config.type) }
    { e with config := extendFieldConfig e.config p }
  else e

theorem rewriteStep_lookup_ne (qn : String) (tc : TypeComposer) (f x : String)
    (hx : x ≠ f) :
    getFieldEntry (rewriteQueryRefStep qn tc f) x = getFieldEntry tc x := by
  cases h : getFieldEntry tc f with
  | none => simp [rewriteQueryRefStep, h]
  | some e =>
    simp only [rewriteQueryRefStep, h]
    by_cases hc : stripWrapping e.config.type = qn
    · rw [if_pos hc, getFieldEntry_extendField, if_neg hx]
    · rw [if_neg hc]

theorem rewriteStep_lookup_self (qn : String) (tc : TypeComposer) (f : String)
    (e : FieldEntry) (hf : getFieldEntry tc f = some e) :
    getFieldEntry (rewriteQueryRefStep qn tc f) f = some (rewrittenEntry qn e) := by
  simp only [rewriteQueryRefStep, hf]
  by_cases hc : stripWrapping e.config.type = qn
  · rw [if_pos hc, getFieldEntry_extendField, if_pos rfl, hf]
    simp [rewrittenEntry, hc]
  · rw [if_neg hc, hf]
    simp [rewrittenEntry, hc]

theorem rewriteFold_not_mem (qn : String) (names : List String) (tc : TypeComposer)
    (x : String) (hx : x ∉ names) :
    getFieldEntry (names.foldl (rewriteQueryRefStep qn) tc) x = getFieldEntry tc x := by
  induction names generalizing tc with
  | nil => rfl
  | cons f fs ih =>
    rw [List.foldl_cons, ih _ (fun hm => hx (by simp [hm])),
      rewriteStep_lookup_ne qn tc f x (fun he => hx (by simp [he]))]

theorem rewriteFold_mem (qn : String) (names : List String) (tc : TypeComposer)
    (f : String) (e : FieldEntry) (hnd : names.Nodup) (hmem : f ∈ names)
    (hf : getFieldEntry tc f = some e) :
    getFieldEntry (names.foldl (rewriteQueryRefStep qn) tc) f =
      some (rewrittenEntry qn e) := by
  induction names generalizing tc with
  | nil => cases hmem
  | cons g gs ih =>
    have hcons := List.nodup_cons.mp hnd
    rcases List.mem_cons.mp hmem with heq | hmem2
    · subst heq
      rw [List.foldl_cons, rewriteFold_not_mem qn gs _ f hcons.1,
        rewriteStep_lookup_self qn tc f e hf]
    · have hgf : f ≠ g := by
        intro he
        rw [he] at hmem2
        exact hcons.1 hmem2
      rw [List.foldl_cons]
      refine ih (rewriteQueryRefStep qn tc g) hcons.2 hmem2 ?_
      rw [rewriteStep_lookup_ne qn tc g f hgf]
      exact hf

theorem processThirdParty_lookup_fresh (qn : String) (tc : TypeComposer)
    (hfresh : ∀ p ∈ tc.fields, ¬ p.2.createdFrom = some "createResolvers" ∧
      p.2.originalFieldConfig = none)
    (hnd : (tc.fields.map Prod.fst).Nodup) (f : String) (e : FieldEntry)
    (hf : getFieldEntry tc f = some e) :
    getFieldEntry (processThirdPartyTypeFields qn tc) f =
      some (rewrittenEntry qn e) := by
  show getFieldEntry (((resetOverriddenThirdPartyTypeFields tc).fields.map Prod.fst).foldl
    (rewriteQueryRefStep qn) (resetOverriddenThirdPartyTypeFields tc)) f = _
  rw [resetOverridden_id tc hfresh]
  have h2 : lookupKV tc.fields f = some e := hf
  exact rewriteFold_mem qn _ tc f e hnd (lookupKV_mem_keys tc.fields f e h2) hf

def c8QueryRoot : TypeComposer :=
  { name := "QueryRoot", kind := .object,
    fields := [("thing", mkFieldEntry { type := "Thing", args := [], resolve := none })] }

def c8DateType : TypeComposer := { name := "Date", kind := .object }

def c8Thing : TypeComposer :=
  { name := "Thing", kind := .object,
    fields := [("self", mkFieldEntry { type := "[QueryRoot]!", args := [], resolve := none })] }

def c8DateSchema : ThirdPartySchema := { queryType := c8QueryRoot, typeMap := [c8DateType] }

def c8Schema : ThirdPartySchema := { queryType := c8QueryRoot, typeMap := [c8Thing, c8DateType] }

def c8State : SchemaComposerState := { types := [], mustHave := [] }

/-- C8, counterexample: an object type named `Date` in a third-party
schema is neither the schema query root nor a specified scalar nor an
introspection type, so the import rule as the claim states it admits it;
yet `addThirdPartySchemas` leaves it out, because the code additionally
excludes any type named `Date` or `JSON`. -/
theorem thirdParty_import_excludes_Date_counterexample :
    specImportFilter "QueryRoot" c8DateType = true ∧
    hasType (addThirdPartySchemas c8State [c8DateSchema]).types "Date" = false := by
  constructor
  · rfl
  · rfl

/-- C8 (amended): for a third-party schema, the processed foreign query
fields are re-homed onto the registry `Query` type; a type of the schema
is imported exactly when it passes the code filter, which excludes the
schema query root, the specified scalars, the introspection types, and
any type named `Date` or `JSON`; an imported type is the processed
composer tagged with provenance `thirdPartySchema`; and on a fresh
imported object or interface type, a field whose type is the foreign
query type name under list/non-null wrappers is rewritten to `Query`
under the same wrappers, keeping its arguments and resolver. -/
theorem addThirdPartySchemas_import_spec
    (st : SchemaComposerState) (schema : ThirdPartySchema)
    (hnd : (schema.typeMap.map (fun u => u.name)).Nodup)
    (hq : ∀ u ∈ schema.typeMap, u.name ≠ "Query") :
    (getType (addThirdPartySchemas st [schema]).types "Query" =
      some (rehomedQuery st schema)) ∧
    (∀ t ∈ schema.typeMap,
      getType (addThirdPartySchemas st [schema]).types t.name =
        (if shouldImportThirdPartyType schema.queryType.name t then
          some (importedThirdPartyType schema.queryType.name t)
        else
          getType (addQueryFields st
            (processThirdPartyTypeFields schema.queryType.name
              schema.queryType).fields).types t.name) ∧
      (importedThirdPartyType schema.queryType.name t).createdFrom =
        some "thirdPartySchema") ∧
    (∀ t : TypeComposer, ∀ f : String, ∀ e : FieldEntry, ∀ pre suf : List Char,
      (t.kind = .object ∨ t.kind = .interface) →
      (∀ p ∈ t.fields, ¬ p.2.createdFrom = some "createResolvers" ∧
        p.2.originalFieldConfig = none) →
      (t.fields.map Prod.fst).Nodup →
      getFieldEntry t f = some e →
      e.config.type.toList = pre ++ (schema.queryType.name.toList ++ suf) →
      (∀ c ∈ pre, c = '[') →
      (∀ c ∈ suf, c = ']' ∨ c = '!') →
      schema.queryType.name.toList ≠ [] →
      (∀ c ∈ schema.queryType.name.toList, ¬ c = '[' ∧ ¬ c = ']' ∧ ¬ c = '!') →
      ∃ e2, getFieldEntry (importedThirdPartyType schema.queryType.name t) f = some e2 ∧
        e2.config.type.toList = pre ++ (("Query" : String).toList ++ suf) ∧
        e2.config.args = e.config.args ∧
        e2.config.resolve = e.config.resolve) := by
  refine ⟨?_, ?_, ?_⟩
  · rw [addThirdPartySchemas_singleton,
      importFold_getType_not_mem _ _ _ _ hq, addQueryFields_getType_query]
    rfl
  · intro t ht
    constructor
    · rw [addThirdPartySchemas_singleton]
      exact importFold_getType_mem _ _ _ t ht hnd
    · rfl
  · intro t f e pre suf hkind hfresh hndf hf hs hpre hsuf hqn hclean
    have hstrip : stripWrapping e.config.type = schema.queryType.name :=
      stripWrapping_wrapped _ _ pre suf hs hpre hsuf hclean
    have hlook := processThirdParty_lookup_fresh schema.queryType.name t hfresh hndf f e hf
    have himp : getFieldEntry (importedThirdPartyType schema.queryType.name t) f =
        getFieldEntry (processThirdPartyTypeFields schema.queryType.name t) f := by
      refine getFieldEntry_congr _ _ f ?_
      simp [importedThirdPartyType, hkind]
    refine ⟨rewrittenEntry schema.queryType.name e, by rw [himp, hlook], ?_, ?_, ?_⟩
    · have hty : (rewrittenEntry schema.queryType.name e).config.type =
          replaceFirst schema.queryType.name "Query" e.config.type := by
        simp [rewrittenEntry, hstrip, extendFieldConfig]
      rw [hty]
      exact replaceFirst_wrapped _ _ _ pre suf hs hpre hqn (fun c hc => (hclean c hc).1)
    · simp [rewrittenEntry, hstrip, extendFieldConfig]
    · simp [rewrittenEntry, hstrip, extendFieldConfig]

/-- Witness for the amended C8 on a concrete schema: the foreign query
fields land on `Query`, the object type `Thing` is imported with the
third-party tag, and its field `self : [QueryRoot]!` becomes
`[Query]!`. -/
theorem addThirdPartySchemas_import_spec_witness :
    getType (addThirdPartySchemas c8State [c8Schema]).types "Query" =
      some (rehomedQuery c8State c8Schema) ∧
    getType (addThirdPartySchemas c8State [c8Schema]).types "Thing" =
      some (importedThirdPartyType "QueryRoot" c8Thing) ∧
    (∃ e2, getFieldEntry (importedThirdPartyType "QueryRoot" c8Thing) "self" = some e2 ∧
      e2.config.type.toList = ['['] ++ (("Query" : String).toList ++ [']', '!'])) := by
  have h := addThirdPartySchemas_import_spec c8State c8Schema (by decide) (by decide)
  refine ⟨h.1, ?_, ?_⟩
  · have h2 := (h.2.1 c8Thing (by simp [c8Schema])).1
    have himp : shouldImportThirdPartyType c8Schema.queryType.name c8Thing = true := by decide
    rw [if_pos himp] at h2
    exact h2
  · rcases h.2.2 c8Thing "self"
      (mkFieldEntry { type := "[QueryRoot]!", args := [], resolve := none })
      ['['] [']', '!'] (by decide) (by decide) (by decide) (by rfl) (by decide)
      (by decide) (by decide) (by decide) (by decide) with ⟨e2, he2, hty, hargs, hres⟩
    exact ⟨e2, he2, hty⟩

theorem resetStep_lookup_ne (tc : TypeComposer) (f x : String) (hx : x ≠ f) :
    getFieldEntry (resetFieldStep tc f) x = getFieldEntry tc x := by
  cases h : getFieldEntry tc f with
  | none => simp [resetFieldStep, h]
  | some e =>
    simp only [resetFieldStep, h]
    by_cases h1 : e.createdFrom = some "createResolvers"
    · rw [if_pos h1, getFieldEntry_removeField, if_neg hx]
    · rw [if_neg h1]
      cases h2 : e.originalFieldConfig with
      | none => rfl
      | some config =>
        rw [getFieldEntry_appendField, getFieldEntry_removeField, if_neg hx]
        have hfx : ¬ (f = x) := fun he => hx he.symm
        cases hl : getFieldEntry tc x <;> simp [hfx, hl]

theorem resetStep_lookup_self (tc : TypeComposer) (f : String) (e : FieldEntry)
    (hf : getFieldEntry tc f = some e) :
    getFieldEntry (resetFieldStep tc f) f = resetFieldLookupResult (some e) := by
  simp only [resetFieldStep, hf]
  by_cases h1 : e.createdFrom = some "createResolvers"
  · rw [if_pos h1, getFieldEntry_removeField, if_pos rfl]
    simp [resetFieldLookupResult, h1]
  · rw [if_neg h1]
    cases h2 : e.originalFieldConfig with
    | none => rw [hf]; simp [resetFieldLookupResult, h1, h2]
    | some config =>
      rw [getFieldEntry_appendField, getFieldEntry_removeField, if_pos rfl]
      simp [resetFieldLookupResult, h1, h2]

theorem resetFold_not_mem (names : List String) (tc : TypeComposer) (x : String)
    (hx : x ∉ names) :
    getFieldEntry (names.foldl resetFieldStep tc) x = getFieldEntry tc x := by
  induction names generalizing tc with
  | nil => rfl
  | cons f fs ih =>
    rw [List.foldl_cons, ih _ (fun hm => hx (by simp [hm])),
      resetStep_lookup_ne tc f x (fun he => hx (by simp [he]))]

theorem resetFold_mem (names : List String) (tc : TypeComposer) (f : String)
    (e : FieldEntry) (hnd : names.Nodup) (hmem : f ∈ names)
    (hf : getFieldEntry tc f = some e) :
    getFieldEntry (names.foldl resetFieldStep tc) f =
      resetFieldLookupResult (some e) := by
  induction names generalizing tc with
  | nil => cases hmem
  | cons g gs ih =>
    have hcons := List.nodup_cons.mp hnd
    rcases List.mem_cons.mp hmem with heq | hmem2
    · subst heq
      rw [List.foldl_cons, resetFold_not_mem gs _ f hcons.1,
        resetStep_lookup_self tc f e hf]
    · have hgf : f ≠ g := by
        intro he
        rw [he] at hmem2
        exact hcons.1 hmem2
      rw [List.foldl_cons]
      refine ih (resetFieldStep tc g) hcons.2 hmem2 ?_
      rw [resetStep_lookup_ne tc g f hgf]
      exact hf

theorem keys_filter_ne {β : Type} (l : List (String × β)) (f : String) :
    ((l.filter (fun p => !(p.1 = f : Bool))).map Prod.fst) =
      (l.map Prod.fst).filter (fun x => !(x = f : Bool)) := by
  induction l with
  | nil => rfl
  | cons p l ih =>
    by_cases hp : p.1 = f <;> simp [List.filter_cons, hp, ih]

theorem resetFieldStep_nodup (tc : TypeComposer) (f : String)
    (hnd : (tc.fields.map Prod.fst).Nodup) :
    ((resetFieldStep tc f).fields.map Prod.fst).Nodup := by
  cases h : getFieldEntry tc f with
  | none => simpa [resetFieldStep, h] using hnd
  | some e =>
    simp only [resetFieldStep, h]
    by_cases h1 : e.createdFrom = some "createResolvers"
    · rw [if_pos h1]
      show ((tc.fields.filter (fun p => !(p.1 = f : Bool))).map Prod.fst).Nodup
      rw [keys_filter_ne]
      exact hnd.filter _
    · rw [if_neg h1]
      cases h2 : e.originalFieldConfig with
      | none => exact hnd
      | some config =>
        show (((tc.fields.filter (fun p => !(p.1 = f : Bool))) ++
          [(f, mkFieldEntry config)]).map Prod.fst).Nodup
        rw [List.map_append, keys_filter_ne]
        simp only [List.map_cons, List.map_nil]
        rw [List.nodup_append]
        refine ⟨hnd.filter _, List.nodup_singleton f, ?_⟩
        intro a ha hb
        rw [List.mem_singleton] at hb
        rw [List.mem_filter] at ha
        rw [hb] at ha
        simp at ha

theorem resetFold_nodup (names : List String) (tc : TypeComposer)
    (hnd : (tc.fields.map Prod.fst).Nodup) :
    (((names.foldl resetFieldStep tc).fields.map Prod.fst)).Nodup := by
  induction names generalizing tc with
  | nil => exact hnd
  | cons f fs ih =>
    rw [List.foldl_cons]
    exact ih _ (resetFieldStep_nodup tc f hnd)

theorem reset_lookup (tc : TypeComposer)
    (hnd : (tc.fields.map Prod.fst).Nodup) (f : String) :
    getFieldEntry (resetOverriddenThirdPartyTypeFields tc) f =
      resetFieldLookupResult (getFieldEntry tc f) := by
  unfold resetOverriddenThirdPartyTypeFields
  cases hf : getFieldEntry tc f with
  | none =>
    have hnm : f ∉ tc.fields.map Prod.fst := by
      intro hm
      have hs := lookupKV_isSome_of_mem tc.fields f hm
      rw [show lookupKV tc.fields f = getFieldEntry tc f from rfl, hf] at hs
      simp at hs
    rw [resetFold_not_mem _ tc f hnm, hf]
    rfl
  | some e =>
    have h2 : lookupKV tc.fields f = some e := hf
    exact resetFold_mem _ tc f e hnd (lookupKV_mem_keys tc.fields f e h2) hf

theorem reset_nodup (tc : TypeComposer) (hnd : (tc.fields.map Prod.fst).Nodup) :
    (((resetOverriddenThirdPartyTypeFields tc).fields.map Prod.fst)).Nodup :=
  resetFold_nodup _ tc hnd

theorem processThirdParty_lookup (qn : String) (tc : TypeComposer)
    (hnd : (tc.fields.map Prod.fst).Nodup) (f : String) :
    getFieldEntry (processThirdPartyTypeFields qn tc) f =
      (resetFieldLookupResult (getFieldEntry tc f)).map (rewrittenEntry qn) := by
  have hG := reset_lookup tc hnd f
  show getFieldEntry (((resetOverriddenThirdPartyTypeFields tc).fields.map Prod.fst).foldl
    (rewriteQueryRefStep qn) (resetOverriddenThirdPartyTypeFields tc)) f = _
  rw [← hG]
  cases hr : getFieldEntry (resetOverriddenThirdPartyTypeFields tc) f with
  | none =>
    have hnm : f ∉ (resetOverriddenThirdPartyTypeFields tc).fields.map Prod.fst := by
      intro hm
      have hs := lookupKV_isSome_of_mem (resetOverriddenThirdPartyTypeFields tc).fields f hm
      rw [show lookupKV (resetOverriddenThirdPartyTypeFields tc).fields f =
        getFieldEntry (resetOverriddenThirdPartyTypeFields tc) f from rfl, hr] at hs
      simp at hs
    rw [rewriteFold_not_mem qn _ _ f hnm, hr]
    rfl
  | some e =>
    have h2 : lookupKV (resetOverriddenThirdPartyTypeFields tc).fields f = some e := hr
    rw [rewriteFold_mem qn _ _ f e (reset_nodup tc hnd)
      (lookupKV_mem_keys _ f e h2) hr]
    rfl

theorem applyAcceptedOverride_createdFrom (tc : TypeComposer) (f : String)
    (cfg : OverrideConfig) (ofc : FieldConfig) :
    (applyAcceptedOverride tc f cfg ofc).createdFrom = tc.createdFrom := by
  rcases hres : cfg.resolve with _ | fnId <;>
    simp only [applyAcceptedOverride, hres, extendField_createdFrom,
      modifyField_createdFrom] <;>
    by_cases h : tc.createdFrom == some "thirdPartySchema" <;>
      simp [h, extendField_createdFrom, modifyField_createdFrom]

theorem applyAcceptedOverride_names (tc : TypeComposer) (f : String)
    (cfg : OverrideConfig) (ofc : FieldConfig) :
    (applyAcceptedOverride tc f cfg ofc).fields.map Prod.fst =
      tc.fields.map Prod.fst := by
  rcases hres : cfg.resolve with _ | fnId <;>
    simp only [applyAcceptedOverride, hres, extendField_createdFrom,
      modifyField_createdFrom] <;>
    by_cases h : tc.createdFrom == some "thirdPartySchema" <;>
      simp [h, fields_names_modifyField, fields_names_extendField]

/-- The entry the add path of the createResolvers closure creates at a
previously missing field name (schema.js 815-821). -/
def addedResolverEntry (cfg : OverrideConfig) : FieldEntry :=
  let c : FieldConfig :=
    { type := (cfg.type.map stringifyTypeSpec).getD ""
      args := cfg.args.getD []
      resolve := cfg.resolve.map .fn }
  { mkFieldEntry c with createdFrom := some "createResolvers" }

theorem applyCreateResolver_add_lookup (tc : TypeComposer) (tn y : String)
    (cfg : OverrideConfig) (x : String) (hy : getFieldEntry tc y = none) :
    getFieldEntry (applyCreateResolverToField tc tn y cfg).1 x =
      if x = y then some (addedResolverEntry cfg) else getFieldEntry tc x := by
  simp only [applyCreateResolverToField, hy]
  rw [getFieldEntry_modifyField]
  by_cases hx : x = y
  · subst hx
    rw [if_pos rfl, if_pos rfl, getFieldEntry_appendField, hy]
    simp [addedResolverEntry, mkFieldEntry]
  · rw [if_neg hx, if_neg hx, getFieldEntry_appendField]
    have hyx : ¬ (y = x) := fun he => hx he.symm
    cases hl : getFieldEntry tc x <;> simp [hyx, hl]

theorem applyCreateResolver_add_createdFrom (tc : TypeComposer) (tn y : String)
    (cfg : OverrideConfig) (hy : getFieldEntry tc y = none) :
    (applyCreateResolverToField tc tn y cfg).1.createdFrom = tc.createdFrom := by
  simp only [applyCreateResolverToField, hy]
  rfl

theorem applyCreateResolver_add_names (tc : TypeComposer) (tn y : String)
    (cfg : OverrideConfig) (hy : getFieldEntry tc y = none) :
    (applyCreateResolverToField tc tn y cfg).1.fields.map Prod.fst =
      tc.fields.map Prod.fst ++ [y] := by
  simp only [applyCreateResolverToField, hy]
  rw [fields_names_modifyField]
  simp [appendField]

theorem overriddenEntry_ofc_tps (tc : TypeComposer) (cfg : OverrideConfig)
    (e : FieldEntry) (h : (tc.createdFrom == some "thirdPartySchema") = true) :
    (overriddenEntry tc cfg e).originalFieldConfig = some e.config := by
  simp [overriddenEntry, h]

/-- Relation between a freshly imported composer `tc0` and its state
`tc1` after a prefix of createResolvers overrides: provenance kept,
field names still unique, names in `rem` untouched, and every field is
either untouched, overridden with its prior config recorded, or newly
added with the createResolvers tag. -/
def OverrideTracked (tc0 tc1 : TypeComposer) (rem : List String) : Prop :=
  tc1.createdFrom = tc0.createdFrom ∧
  (tc1.fields.map Prod.fst).Nodup ∧
  (∀ x ∈ rem, getFieldEntry tc1 x = getFieldEntry tc0 x) ∧
  ∀ x : String,
    match getFieldEntry tc0 x, getFieldEntry tc1 x with
    | none, none => True
    | none, some e1 => e1.createdFrom = some "createResolvers"
    | some e0, some e1 =>
        e1.createdFrom = e0.createdFrom ∧
        (e1 = e0 ∨ e1.originalFieldConfig = some e0.config)
    | some _, none => False

theorem overrideStep_tracked (tc0 tc1 : TypeComposer) (tn y : String)
    (cfg : OverrideConfig) (rem : List String)
    (h0 : tc0.createdFrom = some "thirdPartySchema")
    (htr : OverrideTracked tc0 tc1 (y :: rem)) (hynotin : y ∉ rem) :
    OverrideTracked tc0 (applyCreateResolverToField tc1 tn y cfg).1 rem := by
  obtain ⟨hcf, hnd1, hrem, hR⟩ := htr
  have hy0 : getFieldEntry tc1 y = getFieldEntry tc0 y := hrem y (by simp)
  cases h1 : getFieldEntry tc0 y with
  | some e0 =>
    have hy1 : getFieldEntry tc1 y = some e0 := by rw [hy0, h1]
    have hacc : overrideAcceptCond tc1 cfg e0.config.type = true := by
      simp [overrideAcceptCond, hcf, h0]
    have heq : (applyCreateResolverToField tc1 tn y cfg).1 =
        applyAcceptedOverride tc1 y cfg e0.config := by
      simp only [applyCreateResolverToField, hy1]
      rw [if_pos hacc]
    rw [heq]
    refine ⟨?_, ?_, ?_, ?_⟩
    · rw [applyAcceptedOverride_createdFrom]
      exact hcf
    · rw [applyAcceptedOverride_names]
      exact hnd1
    · intro x hx
      rw [applyAcceptedOverride_lookup tc1 y cfg e0 hy1 x]
      have hxy : x ≠ y := by
        intro he
        rw [he] at hx
        exact hynotin hx
      rw [if_neg hxy]
      exact hrem x (by simp [hx])
    · intro x
      rw [applyAcceptedOverride_lookup tc1 y cfg e0 hy1 x]
      by_cases hxy : x = y
      · subst hxy
        rw [if_pos rfl, h1]
        refine ⟨rfl, Or.inr (overriddenEntry_ofc_tps tc1 cfg e0 ?_)⟩
        rw [hcf, h0]
        rfl
      · rw [if_neg hxy]
        exact hR x
  | none =>
    have hy1 : getFieldEntry tc1 y = none := by rw [hy0, h1]
    have hym : y ∉ tc1.fields.map Prod.fst := by
      intro hm
      have hs := lookupKV_isSome_of_mem tc1.fields y hm
      rw [show lookupKV tc1.fields y = getFieldEntry tc1 y from rfl, hy1] at hs
      simp at hs
    refine ⟨?_, ?_, ?_, ?_⟩
    · rw [applyCreateResolver_add_createdFrom tc1 tn y cfg hy1]
      exact hcf
    · rw [applyCreateResolver_add_names tc1 tn y cfg hy1]
      rw [List.nodup_append]
      refine ⟨hnd1, List.nodup_singleton y, ?_⟩
      intro a ha hb
      rw [List.mem_singleton] at hb
      rw [hb] at ha
      exact hym ha
    · intro x hx
      rw [applyCreateResolver_add_lookup tc1 tn y cfg x hy1]
      have hxy : x ≠ y := by
        intro he
        rw [he] at hx
        exact hynotin hx
      rw [if_neg hxy]
      exact hrem x (by simp [hx])
    · intro x
      rw [applyCreateResolver_add_lookup tc1 tn y cfg x hy1]
      by_cases hxy : x = y
      · subst hxy
        rw [if_pos rfl, h1]
        show (addedResolverEntry cfg).createdFrom = some "createResolvers"
        rfl
      · rw [if_neg hxy]
        exact hR x

theorem overrideTracked_init (tc0 : TypeComposer) (rem : List String)
    (hnd : (tc0.fields.map Prod.fst).Nodup) :
    OverrideTracked tc0 tc0 rem := by
  refine ⟨rfl, hnd, fun x hx => rfl, ?_⟩
  intro x
  cases h : getFieldEntry tc0 x with
  | none => trivial
  | some e => exact ⟨rfl, Or.inl rfl⟩

theorem overrideFold_tracked (tc0 : TypeComposer) (tn : String) :
    ∀ (overrides : List (String × OverrideConfig)) (tc1 : TypeComposer),
      tc0.createdFrom = some "thirdPartySchema" →
      (overrides.map Prod.fst).Nodup →
      OverrideTracked tc0 tc1 (overrides.map Prod.fst) →
      OverrideTracked tc0
        (overrides.foldl (fun a q => (applyCreateResolverToField a tn q.1 q.2).1) tc1) []
  | [], tc1, h0, hnd, htr => htr
  | q :: qs, tc1, h0, hnd, htr => by
    have hcons := List.nodup_cons.mp (show (q.1 :: qs.map Prod.fst).Nodup from hnd)
    have htr2 : OverrideTracked tc0 tc1 (q.1 :: qs.map Prod.fst) := htr
    rw [List.foldl_cons]
    exact overrideFold_tracked tc0 tn qs _ h0 hcons.2
      (overrideStep_tracked tc0 tc1 tn q.1 q.2 (qs.map Prod.fst) h0 htr2 hcons.1)

/-- C5: resetting a third-party composer drops every field tagged as
added by createResolvers and restores every field carrying an
`originalFieldConfig` snapshot to exactly that recorded configuration —
and `processThirdPartyTypeFields` runs this reset before re-applying the
query-type rewrite. In consequence, re-processing a freshly imported
third-party type after any run of createResolvers overrides (each target
field named once) yields, field for field, exactly the contents obtained
from processing the pristine type, so re-importing the same schema does
not let the imported definitions grow across builds. -/
theorem thirdParty_reset_and_reimport_stable (tc : TypeComposer) (qn tn : String)
    (hnd : (tc.fields.map Prod.fst).Nodup) :
    (∀ f, getFieldEntry (resetOverriddenThirdPartyTypeFields tc) f =
      resetFieldLookupResult (getFieldEntry tc f)) ∧
    (tc.createdFrom = some "thirdPartySchema" →
      (∀ p ∈ tc.fields, p.2 = mkFieldEntry p.2.config) →
      ∀ overrides : List (String × OverrideConfig),
        (overrides.map Prod.fst).Nodup →
        ∀ x, getFieldEntry (processThirdPartyTypeFields qn
            (overrides.foldl (fun a q => (applyCreateResolverToField a tn q.1 q.2).1) tc)) x =
          getFieldEntry (processThirdPartyTypeFields qn tc) x) := by
  constructor
  · exact fun f => reset_lookup tc hnd f
  · intro h0 hpristine overrides hndo x
    obtain ⟨hcf, hnd1, hrem0, hR⟩ := overrideFold_tracked tc tn overrides tc h0 hndo
      (overrideTracked_init tc (overrides.map Prod.fst) hnd)
    set tcN := overrides.foldl (fun a q => (applyCreateResolverToField a tn q.1 q.2).1) tc
      with htcN
    have hkey : resetFieldLookupResult (getFieldEntry tcN x) =
        resetFieldLookupResult (getFieldEntry tc x) := by
      have hRx := hR x
      cases h0x : getFieldEntry tc x with
      | none =>
        rw [h0x] at hRx
        cases h1x : getFieldEntry tcN x with
        | none => rfl
        | some e1 =>
          rw [h1x] at hRx
          have he1 : e1.createdFrom = some "createResolvers" := hRx
          simp [resetFieldLookupResult, he1]
      | some e0 =>
        have he0 : e0 = mkFieldEntry e0.config := by
          have h2 : lookupKV tc.fields x = some e0 := h0x
          exact hpristine (x, e0) (lookupKV_mem_pair tc.fields x e0 h2)
        have hcr0 : e0.createdFrom = none := by rw [he0]; rfl
        have hofc0 : e0.originalFieldConfig = none := by rw [he0]; rfl
        rw [h0x] at hRx
        cases h1x : getFieldEntry tcN x with
        | none =>
          rw [h1x] at hRx
          exact hRx.elim
        | some e1 =>
          rw [h1x] at hRx
          obtain ⟨hcr1, hrest⟩ := hRx
          have hcr1n : e1.createdFrom = none := by rw [hcr1, hcr0]
          rcases hrest with he1e0 | hofc1
          · rw [he1e0]
          · simp only [resetFieldLookupResult, hcr1n, hofc1, hcr0, hofc0]
            simp
            exact he0.symm
    rw [processThirdParty_lookup qn tcN hnd1 x, processThirdParty_lookup qn tc hnd x, hkey]

def c5Tc : TypeComposer :=
  { name := "Ext", kind := .object, createdFrom := some "thirdPartySchema",
    fields := [("a", mkFieldEntry { type := "Int", args := [], resolve := none }),
               ("b", mkFieldEntry { type := "QR", args := [], resolve := none })] }

def c5Overrides : List (String × OverrideConfig) :=
  [("a", { type := none, args := none, resolve := some 3 }),
   ("added", { type := none, args := none, resolve := some 4 })]

/-- Witness for C5 on a concrete third-party composer: resetting after
an override of `a` and an added field restores the recorded state, and
re-processing after those overrides agrees, field for field, with
processing the pristine composer. -/
theorem thirdParty_reset_and_reimport_stable_witness :
    (getFieldEntry (resetOverriddenThirdPartyTypeFields c5Tc) "a" =
      resetFieldLookupResult (getFieldEntry c5Tc "a")) ∧
    (getFieldEntry (processThirdPartyTypeFields "QR"
        (c5Overrides.foldl (fun a q => (applyCreateResolverToField a "Ext" q.1 q.2).1) c5Tc))
        "a" =
      getFieldEntry (processThirdPartyTypeFields "QR" c5Tc) "a") ∧
    (getFieldEntry (processThirdPartyTypeFields "QR"
        (c5Overrides.foldl (fun a q => (applyCreateResolverToField a "Ext" q.1 q.2).1) c5Tc))
        "added" =
      getFieldEntry (processThirdPartyTypeFields "QR" c5Tc) "added") := by
  have h := thirdParty_reset_and_reimport_stable c5Tc "QR" "Ext" (by decide)
  have h2 := h.2 (by rfl) (by decide) c5Overrides (by decide)
  exact ⟨h.1 "a", h2 "a", h2 "added"⟩

end GatsbySchema
